import Mathlib

/-!
# Shallow embedding of `src/sim/mem_pool.cc` (gem5 buddy-allocator fork)

This file embeds the buddy memory allocator of `mem_pool.cc` into Lean.
The C++ code manipulates raw `struct buddy*` nodes obtained from `malloc`,
linked into eleven doubly-linked free lists (`list_heads[0..10]`).  The
embedding models the process heap explicitly:

* a node address is a `Nat`; the heap is an association list from addresses
  to `BuddyNode` records (`malloc` hands out fresh addresses, `free` removes
  the binding);
* a pointer field holds a `PtrV`: `undef` for a field that was never
  assigned after `malloc` (reading it is undefined behaviour in C),
  `null` for the C `NULL`, or `node a` for a pointer to address `a`;
* every C read of a field goes through a monadic accessor in
  `M := Except MErr`: reading an `undef` field yields `MErr.undefRead`,
  dereferencing a freed or null pointer yields `MErr.dangling`, and a
  failing `assert`/`gem5_assert` yields `MErr.assertFail`;
* the unbounded C loops/recursions (`find_buddy`, `insert_buddy` and the
  list scan inside it) take an explicit fuel argument; running out of fuel
  yields `MErr.noFuel`.  The top-level entry points pass enough fuel for
  the bounded order range 0..10 (the scan fuel is the heap size, a bound on
  any acyclic list length).

`Addr` and `Counter` are C `uint64_t`/`int64_t`.  All quantities that occur
in the claims (page counts up to 2048, orders up to 10, page shifts around
12) are astronomically below `2^64`, and the only subtractions performed
(`b->next->start - b->start`, `b->start - b->prev->start`, and
`freePageNum - startPageNum`) are compared against small block sizes, so
truncated `Nat` subtraction and unsigned wrap-around subtraction agree on
every comparison the code makes; the embedding therefore uses plain `Nat`
arithmetic (and `Int` for the signed `Counter` difference in
`allocatedPages`).
-/

deriving instance DecidableEq for Except

namespace MemPool

/-- A C pointer value: uninitialized (`undef`), `NULL`, or a node address. -/
inductive PtrV where
  | undef : PtrV
  | null : PtrV
  | node (a : Nat) : PtrV
deriving DecidableEq, Repr, Inhabited

/-- `struct buddy` from `mem_pool.hh`: `size` and `start` (in pages, relative
to the pool base) and the intrusive `next`/`prev` list links.  A field is
`none`/`undef` while it has not been assigned after `malloc`. -/
structure BuddyNode where
  size : Option Nat := none
  start : Option Nat := none
  next : PtrV := PtrV.undef
  prev : PtrV := PtrV.undef
deriving DecidableEq, Repr, Inhabited

/-- Ways an operation of the embedded program can abort. -/
inductive MErr where
  | assertFail : MErr
  | undefRead : MErr
  | dangling : MErr
  | noFuel : MErr
deriving DecidableEq, Repr, Inhabited

/-- Result monad of the embedding. -/
abbrev M (α : Type) : Type := Except MErr α

/-- The process heap restricted to `struct buddy` nodes. -/
abbrev Heap : Type := List (Nat × BuddyNode)

/-- Association-list lookup of a node by address. -/
def hfind (h : Heap) (a : Nat) : Option BuddyNode :=
  match h with
  | [] => none
  | (b, n) :: t => if b = a then some n else hfind t a

/-- Overwrite the node stored at address `a` (no-op if absent). -/
def hset (h : Heap) (a : Nat) (n : BuddyNode) : Heap :=
  match h with
  | [] => []
  | (b, m) :: t => if b = a then (b, n) :: t else (b, m) :: hset t a n

/-- Remove the binding at address `a` (models `free`). -/
def hrem (h : Heap) (a : Nat) : Heap :=
  match h with
  | [] => []
  | (b, m) :: t => if b = a then t else (b, m) :: hrem t a

/-- The state of one buddy free-list engine: the node heap, the next fresh
`malloc` address, and the `list_heads[0..10]` array (index = order). -/
structure BuddyState where
  heap : Heap
  nextA : Nat
  heads : List PtrV
deriving DecidableEq, Repr, Inhabited

/-- `list_heads[order]` (the constructor initializes all eleven entries). -/
def getHead (bs : BuddyState) (order : Nat) : PtrV :=
  bs.heads.getD order PtrV.null

/-- `list_heads[order] = p`. -/
def setHead (bs : BuddyState) (order : Nat) (p : PtrV) : BuddyState :=
  { bs with heads := bs.heads.set order p }

/-- Dereference a live node (`dangling` if the address is not allocated). -/
def readNode (bs : BuddyState) (a : Nat) : M BuddyNode :=
  match hfind bs.heap a with
  | some n => .ok n
  | none => .error .dangling

/-- Read an integer field; `undefRead` if it was never assigned. -/
def valOf (v : Option Nat) : M Nat :=
  match v with
  | some x => .ok x
  | none => .error .undefRead

/-- Read a pointer field; `undefRead` if it was never assigned. -/
def ptrOf (p : PtrV) : M PtrV :=
  match p with
  | .undef => .error .undefRead
  | x => .ok x

/-- Update a live node's fields (`dangling` if the address is not allocated). -/
def writeN (bs : BuddyState) (a : Nat) (f : BuddyNode → BuddyNode) : M BuddyState :=
  match hfind bs.heap a with
  | some n => .ok { bs with heap := hset bs.heap a (f n) }
  | none => .error .dangling

/-- `malloc(sizeof(struct buddy))`: a fresh address holding a node whose
fields are all uninitialized. -/
def mallocN (bs : BuddyState) : Nat × BuddyState :=
  (bs.nextA, { bs with heap := (bs.nextA, {}) :: bs.heap, nextA := bs.nextA + 1 })

/-- `free(b)`: double free / freeing a dangling pointer is an error. -/
def freeN (bs : BuddyState) (a : Nat) : M BuddyState :=
  match hfind bs.heap a with
  | some _ => .ok { bs with heap := hrem bs.heap a }
  | none => .error .dangling

/-- `int power2(int n)` from `mem_pool.cc`: doubling loop computing `2^n`. -/
def power2 : Nat → Nat
  | 0 => 1
  | n + 1 => power2 n * 2

/-- The full `MemPool` object: page shift, start/free page counters,
`_totalPages`, and the buddy engine state. -/
structure PoolState where
  pageShift : Nat
  startPageNum : Nat
  freePageNum : Nat
  _totalPages : Nat
  buddy : BuddyState
deriving DecidableEq, Repr, Inhabited

/-- First constructor loop (`for(i = n_buddies_init; i > 0; i--)`): builds
the order-10 seed chain.  Iteration with C index `i` creates a node with
`size = 1024`, `start = (i-1)*1024`, `next` = previously created node, and
leaves `prev` uninitialized (the second loop assigns it). -/
def mkBuddyLoop : Nat → PtrV → Heap → Nat → PtrV × Heap × Nat
  | 0, nb, h, fr => (nb, h, fr)
  | i + 1, nb, h, fr =>
      mkBuddyLoop i (PtrV.node fr)
        ((fr, { size := some 1024, start := some (i * 1024), next := nb, prev := PtrV.undef }) :: h)
        (fr + 1)

/-- Second constructor loop
(`for(p = list_heads[10]; p != NULL; p = p->next)`): assigns the `prev`
links along the freshly built chain. -/
def setPrevLoop : Nat → PtrV → PtrV → BuddyState → M BuddyState
  | 0, _, _, _ => .error .noFuel
  | _ + 1, PtrV.null, _, bs => .ok bs
  | _ + 1, PtrV.undef, _, _ => .error .undefRead
  | f + 1, PtrV.node a, prevB, bs => do
      let n ← readNode bs a
      let bs ← writeN bs a (fun m => { m with prev := prevB })
      let nx ← ptrOf n.next
      setPrevLoop f nx (PtrV.node a) bs

/-- `MemPool::MemPool(Addr page_shift, Addr ptr, Addr limit)`.
`startPageNum = freePageNum = ptr >> page_shift`,
`_totalPages = (limit - ptr) >> page_shift` (asserted positive), orders
0..9 empty, order 10 seeded with `_totalPages / 1024` blocks at offsets
`0, 1024, ...`. -/
def mkPoolM (page_shift ptr limit : Nat) : M PoolState := do
  let startPN := ptr >>> page_shift
  let tp := (limit - ptr) >>> page_shift
  if tp = 0 then .error .assertFail
  else do
    let n := tp / 1024
    let r := mkBuddyLoop n PtrV.null [] 0
    let bs : BuddyState :=
      { heap := r.2.1, nextA := r.2.2, heads := List.replicate 10 PtrV.null ++ [r.1] }
    let bs ← setPrevLoop (bs.heap.length + 1) r.1 PtrV.null bs
    .ok { pageShift := page_shift, startPageNum := startPN, freePageNum := startPN,
          _totalPages := tp, buddy := bs }

/-- Total wrapper around `mkPoolM` (used only to name concrete states in
theorem statements; `default` is never reached for the inputs used). -/
def mkPool! (page_shift ptr limit : Nat) : PoolState :=
  match mkPoolM page_shift ptr limit with
  | .ok s => s
  | .error _ => default

/-- `struct buddy* MemPool::find_buddy(int order)`: detach the head of the
order-`order` list, or recursively split a block from the next order.  The
fuel bounds the recursion `order, order+1, ...`; entering with
`order > 10` is the C `assert(order <= 10)` failure (the out-of-memory
condition of the spec). -/
def find_buddy : Nat → Nat → BuddyState → M (Nat × BuddyState)
  | 0, _, _ => .error .noFuel
  | fuel + 1, order, bs =>
    if order > 10 then .error .assertFail
    else
      match getHead bs order with
      | PtrV.undef => .error .undefRead
      | PtrV.node bA => do
          let bn ← readNode bs bA
          -- list_heads[order] = b->next;
          let bnext ← ptrOf bn.next
          let bs := setHead bs order bnext
          -- if (list_heads[order] != NULL) list_heads[order]->prev = NULL;
          let bs ← match bnext with
            | PtrV.node c => writeN bs c (fun m => { m with prev := PtrV.null })
            | _ => .ok bs
          -- b->next = NULL; b->prev = NULL;
          let bs ← writeN bs bA (fun m => { m with next := PtrV.null, prev := PtrV.null })
          .ok (bA, bs)
      | PtrV.null => do
          let r ← find_buddy fuel (order + 1) bs
          let bigA := r.1
          let bs := r.2
          let bigN ← readNode bs bigA
          let bigSize ← valOf bigN.size
          let bigStart ← valOf bigN.start
          -- smaller_1: returned to the caller
          let m1 := mallocN bs
          let a1 := m1.1
          let bs ← writeN m1.2 a1 (fun _ =>
            { size := some (bigSize / 2), start := some bigStart,
              next := PtrV.null, prev := PtrV.null })
          -- smaller_2: connected as the (sole) element of the order list
          let m2 := mallocN bs
          let a2 := m2.1
          let bs ← writeN m2.2 a2 (fun _ =>
            { size := some (bigSize / 2), start := some (bigStart + bigSize / 2),
              next := PtrV.null, prev := PtrV.null })
          let bs := setHead bs order (PtrV.node a2)
          -- free(bigger);
          let bs ← freeN bs bigA
          .ok (a1, bs)

/-- The insertion scan of `MemPool::insert_buddy`
(`for(p = list_heads[order]; !inserted; p = p->next)`).  Faithful to the
C evaluation order: each iteration first computes
`prev_start = (p->prev == NULL ? 0 : p->prev->start)`, then tests
`prev_start <= b->start && p->start > b->start` (insert before `p`,
updating only the forward links and the head — `p->prev` and `b->prev`
are *not* updated), then evaluates `p->next == NULL && !inserted`
(note: this reads `p->next` even when already inserted), appending at the
tail if it holds. -/
def scanLoop : Nat → Nat → Nat → PtrV → BuddyState → M BuddyState
  | 0, _, _, _, _ => .error .noFuel
  | _ + 1, _, _, PtrV.null, _ => .error .dangling
  | _ + 1, _, _, PtrV.undef, _ => .error .undefRead
  | fuel + 1, bA, order, PtrV.node pA, bs => do
      let pn ← readNode bs pA
      let prevStart ← match pn.prev with
        | PtrV.undef => .error .undefRead
        | PtrV.null => .ok 0
        | PtrV.node q => do
            let qn ← readNode bs q
            valOf qn.start
      let pStart ← valOf pn.start
      let bn ← readNode bs bA
      let bStart ← valOf bn.start
      if prevStart ≤ bStart ∧ pStart > bStart then do
        -- b->next = p;
        let bs ← writeN bs bA (fun m => { m with next := PtrV.node pA })
        -- if (p->prev == NULL) list_heads[order] = b; else p->prev->next = b;
        let bs ← match pn.prev with
          | PtrV.null => .ok (setHead bs order (PtrV.node bA))
          | PtrV.node q => writeN bs q (fun m => { m with next := PtrV.node bA })
          | PtrV.undef => .error .undefRead
        -- the loop still evaluates `p->next == NULL && !inserted`
        let pn2 ← readNode bs pA
        let _ ← ptrOf pn2.next
        .ok bs
      else do
        let pnext ← ptrOf pn.next
        if pnext = PtrV.null then do
          -- p->next = b; b->next = NULL; b->prev = p;
          let bs ← writeN bs pA (fun m => { m with next := PtrV.node bA })
          let bs ← writeN bs bA (fun m => { m with next := PtrV.null, prev := PtrV.node pA })
          .ok bs
        else
          scanLoop fuel bA order pnext bs

/-- `void MemPool::insert_buddy(struct buddy* b, int order)`: sorted-insert
`b` into the order list, then attempt one coalescing step (left buddy via
`b->next`, right buddy via `b->prev`), recursing into `order+1` with the
merged block.  The fuel bounds the merge recursion. -/
def insert_buddy : Nat → Nat → Nat → BuddyState → M BuddyState
  | 0, _, _, _ => .error .noFuel
  | fuel + 1, bA, order, bs =>
    match getHead bs order with
    | PtrV.undef => .error .undefRead
    | PtrV.null => .ok (setHead bs order (PtrV.node bA))
    | PtrV.node h0 => do
        let bs ← scanLoop (bs.heap.length + 1) bA order (PtrV.node h0) bs
        -- maximum order: no merging happens
        if order = 10 then .ok bs
        else do
          let bn ← readNode bs bA
          let bStart ← valOf bn.start
          let bSize ← valOf bn.size
          if bStart % power2 (order + 1) = 0 then
            -- merging: b is the left buddy
            match ← ptrOf bn.next with
            | PtrV.node c => do
                let cn ← readNode bs c
                let cStart ← valOf cn.start
                if cStart - bStart = bSize then do
                  -- disconnect b and its paired buddy
                  let bprev ← ptrOf bn.prev
                  let cnext ← ptrOf cn.next
                  let bs ← match bprev with
                    | PtrV.null => .ok (setHead bs order cnext)
                    | PtrV.node q => writeN bs q (fun m => { m with next := cnext })
                    | PtrV.undef => .error .undefRead
                  let mg := mallocN bs
                  let g := mg.1
                  let bs ← writeN mg.2 g (fun _ =>
                    { size := some (bSize * 2), start := some bStart,
                      next := PtrV.null, prev := PtrV.null })
                  let bs ← insert_buddy fuel g (order + 1) bs
                  -- free(b->next); free(b);
                  let bn2 ← readNode bs bA
                  match ← ptrOf bn2.next with
                  | PtrV.node c2 => do
                      let bs ← freeN bs c2
                      freeN bs bA
                  | PtrV.null => freeN bs bA
                  | PtrV.undef => .error .undefRead
                else .ok bs
            | PtrV.null => .ok bs
            | PtrV.undef => .error .undefRead
          else
            -- merging: b is the right buddy
            match ← ptrOf bn.prev with
            | PtrV.node q => do
                let qn ← readNode bs q
                let qStart ← valOf qn.start
                if bStart - qStart = bSize then do
                  -- disconnect b and its paired buddy
                  let qprev ← ptrOf qn.prev
                  let bnext ← ptrOf bn.next
                  let bs ← match qprev with
                    | PtrV.null => .ok (setHead bs order bnext)
                    | PtrV.node r => writeN bs r (fun m => { m with next := bnext })
                    | PtrV.undef => .error .undefRead
                  let qSize ← valOf qn.size
                  let mg := mallocN bs
                  let g := mg.1
                  let bs ← writeN mg.2 g (fun _ =>
                    { size := some (qSize * 2), start := some qStart,
                      next := PtrV.null, prev := PtrV.null })
                  let bs ← insert_buddy fuel g (order + 1) bs
                  -- free(b->prev); free(b);
                  let bn2 ← readNode bs bA
                  match ← ptrOf bn2.prev with
                  | PtrV.node q2 => do
                      let bs ← freeN bs q2
                      freeN bs bA
                  | PtrV.null => freeN bs bA
                  | PtrV.undef => .error .undefRead
                else .ok bs
            | PtrV.null => .ok bs
            | PtrV.undef => .error .undefRead

/-- The order-search loop of `MemPool::allocate`
(`for(order = 0; power2(order) < npages && order <= 10; order++)`). -/
def orderLoop : Nat → Nat → Nat → Nat
  | 0, o, _ => o
  | f + 1, o, np => if power2 o < np ∧ o ≤ 10 then orderLoop f (o + 1) np else o

/-- `Addr MemPool::allocate(Addr npages)`: assert `1 ≤ npages ≤ 1024`,
round up to the block order, acquire a block, return
`b->start << pageShift` and free the descriptor.  Note that the returned
address is the pool-relative offset shifted — `startPageNum` is *not*
added. -/
def allocate (s : PoolState) (npages : Nat) : M (Nat × PoolState) := do
  if npages < 1 then .error .assertFail
  else if npages > 1024 then .error .assertFail
  else do
    let order := orderLoop 12 0 npages
    let r ← find_buddy 12 order s.buddy
    let bn ← readNode r.2 r.1
    let st ← valOf bn.start
    let bs ← freeN r.2 r.1
    .ok (st <<< s.pageShift, { s with buddy := bs })

/-- `void MemPool::deallocate(Addr start, Addr npages)`: assert
`npages == 1` and page alignment of `start`, then `malloc` a unit block
with `size = 1`, `start = start >> pageShift` — leaving `next` and `prev`
uninitialized, exactly as the C code does — and insert it at order 0. -/
def deallocate (s : PoolState) (start npages : Nat) : M PoolState := do
  if npages ≠ 1 then .error .assertFail
  else if (start >>> s.pageShift) <<< s.pageShift ≠ start then .error .assertFail
  else do
    let mb := mallocN s.buddy
    let bA := mb.1
    let bs ← writeN mb.2 bA (fun m =>
      { m with size := some 1, start := some (start >>> s.pageShift) })
    let bs ← insert_buddy 12 bA 0 bs
    .ok { s with buddy := bs }

/-- `Counter MemPool::totalPages() const`. -/
def totalPages (s : PoolState) : Nat := s._totalPages

/-- `Counter MemPool::allocatedPages() const`
(`freePageNum - startPageNum`, a signed `Counter`). -/
def allocatedPages (s : PoolState) : Int :=
  (s.freePageNum : Int) - (s.startPageNum : Int)

/-- `Counter MemPool::freePages() const` (`_totalPages - allocatedPages()`). -/
def freePages (s : PoolState) : Int :=
  (s._totalPages : Int) - allocatedPages s

/-- Extract the `(start, size)` sequence of one free list by following the
`next` links (`none` on an uninitialized/dangling link, a never-assigned
field, or insufficient fuel — i.e. when the list is not observably a
well-formed chain). -/
def chainSS (h : Heap) : Nat → PtrV → Option (List (Nat × Nat))
  | _, PtrV.null => some []
  | 0, _ => none
  | _ + 1, PtrV.undef => none
  | f + 1, PtrV.node a =>
      (hfind h a).bind fun n =>
        n.start.bind fun st =>
          n.size.bind fun sz =>
            (chainSS h f n.next).map fun l => (st, sz) :: l

/-- The free list of order `o`, observed with fuel `f`. -/
def orderList (bs : BuddyState) (f o : Nat) : Option (List (Nat × Nat)) :=
  chainSS bs.heap f (getHead bs o)

/-- Boolean test: consecutive `(start, size)` extents are strictly
increasing and disjoint (each block ends at or before the next starts). -/
def chainOrderedB : List (Nat × Nat) → Bool
  | [] => true
  | [_] => true
  | x :: y :: t => (decide (x.1 < y.1 ∧ x.1 + x.2 ≤ y.1)) && chainOrderedB (y :: t)

/-- `(start, size)` extents are strictly increasing and pairwise disjoint. -/
def ChainOrdered (l : List (Nat × Nat)) : Prop :=
  chainOrderedB l = true

instance : DecidablePred ChainOrdered := fun l =>
  inferInstanceAs (Decidable (chainOrderedB l = true))

/-- Σ over orders 0..10 of (number of blocks in the order list) × 2^order,
the free-page total of claim C1 (`none` if some list is not observable). -/
def freeBlockSum (bs : BuddyState) (f : Nat) : Option Nat :=
  ((List.range 11).mapM fun o => (orderList bs f o).map fun l => l.length * 2 ^ o).map
    fun l => l.sum

/-- The engine-level `release(block, order)` of the spec: exactly the call
convention every in-source producer of a non-unit block uses (the
constructor, the split in `find_buddy`, and the merge in `insert_buddy`):
`malloc` a node, assign all four fields (`next = prev = NULL`), and hand it
to `insert_buddy` at the given order. -/
def releaseBlock (bs : BuddyState) (st sz order : Nat) : M BuddyState := do
  let mb := mallocN bs
  let bs ← writeN mb.2 mb.1 (fun _ =>
    { size := some sz, start := some st, next := PtrV.null, prev := PtrV.null })
  insert_buddy 12 mb.1 order bs

/-- A buddy engine with all eleven lists empty and an empty heap (the
ambient state for the isolated buddy-pair experiments of claim C4). -/
def emptyBS : BuddyState :=
  { heap := [], nextA := 0, heads := List.replicate 11 PtrV.null }

/-- Address-and-value chain of one free list: `ChainV h p l` says that
following `next` links from `p` visits exactly the node addresses in `l`
(with their `start`/`size` fields assigned) and ends at `NULL`. -/
inductive ChainV (h : Heap) : PtrV → List (Nat × Nat × Nat) → Prop
  | nil : ChainV h PtrV.null []
  | cons {a st sz : Nat} {n : BuddyNode} {l : List (Nat × Nat × Nat)} :
      hfind h a = some n → n.start = some st → n.size = some sz →
      ChainV h n.next l → ChainV h (PtrV.node a) ((a, st, sz) :: l)

/-- The `(start, size)` projection of a `ChainV` value list. -/
def chainVals (l : List (Nat × Nat × Nat)) : List (Nat × Nat) :=
  l.map fun t => (t.2.1, t.2.2)

/-- The address projection of a `ChainV` value list. -/
def chainAddrs (l : List (Nat × Nat × Nat)) : List Nat :=
  l.map fun t => t.1

/-- The list-relevant core of a node: `start`, `size` and the forward link
(`prev` is excluded: following a list never depends on it). -/
def nodeCore (n : BuddyNode) : Option Nat × Option Nat × PtrV :=
  (n.start, n.size, n.next)

/-- Two heaps agree on every node's core (they may differ in `prev`
fields). -/
def coreAgree (h₁ h₂ : Heap) : Prop :=
  ∀ a, (hfind h₁ a).map nodeCore = (hfind h₂ a).map nodeCore

/-- Every address bound in the heap is below `fr` (freshness bound). -/
def HeapLt (h : Heap) (fr : Nat) : Prop :=
  ∀ a n, hfind h a = some n → a < fr

/-- The invariant maintained by construction and `allocate` (claim C5,
amended): every list is a well-formed chain; orders 0..9 hold at most one
block; the order-10 chain is strictly increasing and non-overlapping; the
eleven chains are address-disjoint and duplicate-free; every chain node is
a live heap node below the `malloc` frontier. -/
structure AInvW (bs : BuddyState) (c : Nat → List (Nat × Nat × Nat)) : Prop where
  hlen : bs.heads.length = 11
  hchain : ∀ o, o ≤ 10 → ChainV bs.heap (getHead bs o) (c o)
  hlow : ∀ o, o < 10 → (c o).length ≤ 1
  hsorted : ChainOrdered (chainVals (c 10))
  hdisj : ∀ o₁ o₂, o₁ ≤ 10 → o₂ ≤ 10 → o₁ ≠ o₂ →
    ∀ a, a ∈ chainAddrs (c o₁) → a ∉ chainAddrs (c o₂)
  hnodup : ∀ o, o ≤ 10 → (chainAddrs (c o)).Nodup
  hfresh : ∀ a n, hfind bs.heap a = some n → a < bs.nextA
  halign : ∀ o, o ≤ 10 → ∀ x ∈ c o, x.2.2 = 2 ^ o ∧ x.2.1 % 2 ^ o = 0

/-- Existential packaging of `AInvW`. -/
def AInv (bs : BuddyState) : Prop :=
  ∃ c, AInvW bs c

/-- States reachable from a successful construction by successful
`allocate` calls only. -/
inductive ReachAlloc : PoolState → Prop
  | base (page_shift ptr limit : Nat) (s : PoolState) :
      mkPoolM page_shift ptr limit = .ok s → ReachAlloc s
  | step (s : PoolState) (n : Nat) (r : Nat × PoolState) :
      ReachAlloc s → allocate s n = .ok r → ReachAlloc r.2

/-- `MemPool::serialize(CheckpointOut&)`: writes exactly the four scalars
`page_shift`, `start_page`, `free_page_num`, `total_pages`, in this order. -/
def serializePool (s : PoolState) : List (String × Nat) :=
  [("page_shift", s.pageShift), ("start_page", s.startPageNum),
   ("free_page_num", s.freePageNum), ("total_pages", s._totalPages)]

/-- `MemPool::unserialize(CheckpointIn&)`: reads exactly those four scalars
back into the object (a missing key is a fatal `paramIn` failure, modelled
as `none`); the buddy free-list state (`list_heads`) is not touched. -/
def unserializePool (s : PoolState) (cp : String → Option Nat) : Option PoolState := do
  let ps ← cp "page_shift"
  let sp ← cp "start_page"
  let fp ← cp "free_page_num"
  let tp ← cp "total_pages"
  some { s with pageShift := ps, startPageNum := sp, freePageNum := fp, _totalPages := tp }

/-- The `MemPools` registry: the shared page shift and the ordered pool
sequence. -/
structure PoolsState where
  pageShift : Nat
  pools : List PoolState
deriving DecidableEq, Inhabited

/-- `csprintf("pool%d", i)`. -/
def poolSection (i : Nat) : String := "pool" ++ toString i

/-- `MemPools::serialize`: inside a `mempools` section, `num_pools`
followed by each pool's own four-scalar section `pool<i>`, in order.
Checkpoint keys are modelled as fully-qualified dotted paths. -/
def serializePools (m : PoolsState) : List (String × Nat) :=
  ("mempools.num_pools", m.pools.length) ::
    m.pools.enum.flatMap fun p =>
      (serializePool p.2).map fun kv =>
        ("mempools." ++ poolSection p.1 ++ "." ++ kv.1, kv.2)

/-- Modelled from the spec: the default `MemPool` constructor used by
`MemPools::unserialize` (`MemPool pool;`) is declared in the missing header
`mem_pool.hh`; per spec §4.2/§4.3 a restored pool carries only the four
persisted scalars and no free-list topology, so the default object is
modelled with zero scalars and an empty buddy engine. -/
def defaultPool : PoolState :=
  { pageShift := 0, startPageNum := 0, freePageNum := 0, _totalPages := 0,
    buddy := { heap := [], nextA := 0, heads := List.replicate 11 PtrV.null } }

/-- The rebuild loop of `MemPools::unserialize`
(`for (int i = 0; i < num_pools; i++)`): starting at index `i`, build `k`
pools, each default-constructed and then unserialized from its `pool<i>`
section. -/
def buildPools (cp : String → Option Nat) : Nat → Nat → Option (List PoolState)
  | _, 0 => some []
  | i, k + 1 => do
      let p ← unserializePool defaultPool fun key =>
        cp ("mempools." ++ poolSection i ++ "." ++ key)
      let rest ← buildPools cp (i + 1) k
      some (p :: rest)

/-- `MemPools::unserialize`: `pools.clear()`, read `num_pools`, then rebuild
exactly that many pools, each by default-constructing a pool and
unserializing its `pool<i>` section, in order. -/
def unserializePools (m : PoolsState) (cp : String → Option Nat) : Option PoolsState := do
  let n ← cp "mempools.num_pools"
  let ps ← buildPools cp 0 n
  some { m with pools := ps }

/-- The 2048-page, 4 KiB-page pool of the spec's concrete scenario. -/
def pool2048 : PoolState := mkPool! 12 0 (2048 * 4096)

/-- `pool2048` after `allocate(1)` (which returns address `0x0`). -/
def pool2048a : PoolState :=
  match allocate pool2048 1 with
  | .ok r => r.2
  | .error _ => default

/-- `pool2048a` after `deallocate(0x1000, 1)` — releasing page 1, which is
already free (a call the code accepts). -/
def pool2048b : PoolState :=
  match deallocate pool2048a 4096 1 with
  | .ok s => s
  | .error _ => default

/-- A pool whose base address is one page (`startPageNum = 1`). -/
def poolShifted : PoolState := mkPool! 12 4096 (4096 + 2048 * 4096)

/-- A 1024-page pool with its single order-10 block already allocated
(order-10 exhaustion state for claim C6). -/
def poolExhausted : PoolState :=
  match allocate (mkPool! 12 0 (1024 * 4096)) 1024 with
  | .ok r => r.2
  | .error _ => default

/-- A concrete one-pool checkpoint (used by the C9 witness). -/
def cpEx : String → Option Nat := fun k =>
  if k = "mempools.num_pools" then some 1
  else if k = "mempools.pool0.page_shift" then some 12
  else if k = "mempools.pool0.start_page" then some 3
  else if k = "mempools.pool0.free_page_num" then some 4
  else if k = "mempools.pool0.total_pages" then some 2048
  else none

/-- A concrete registry with one pool (used by the C9 witness). -/
def poolsEx : PoolsState := { pageShift := 12, pools := [pool2048] }

/-- The registry rebuilt from `cpEx` (used by the C9 witness). -/
def poolsEx2 : PoolsState :=
  match unserializePools poolsEx cpEx with
  | some m => m
  | none => default

/-! ## Basic lemmas about the monadic embedding -/

theorem M_bind_ok {α β : Type} {x : M α} {f : α → M β} {b : β} :
    x >>= f = .ok b ↔ ∃ a, x = .ok a ∧ f a = .ok b := by
  cases x <;> simp [Bind.bind, Except.bind]

theorem readNode_ok {bs : BuddyState} {a : Nat} {n : BuddyNode} :
    readNode bs a = .ok n ↔ hfind bs.heap a = some n := by
  unfold readNode
  cases hfind bs.heap a <;> simp

theorem valOf_ok {v : Option Nat} {x : Nat} : valOf v = .ok x ↔ v = some x := by
  cases v <;> simp [valOf]

theorem ptrOf_ok {p q : PtrV} : ptrOf p = .ok q ↔ p ≠ PtrV.undef ∧ p = q := by
  cases p <;> simp [ptrOf]

theorem freeN_ok {bs bs' : BuddyState} {a : Nat} :
    freeN bs a = .ok bs' ↔
      (∃ n, hfind bs.heap a = some n) ∧ bs' = { bs with heap := hrem bs.heap a } := by
  unfold freeN
  cases hfind bs.heap a <;> simp [eq_comm]

theorem writeN_ok {bs bs' : BuddyState} {a : Nat} {f : BuddyNode → BuddyNode} :
    writeN bs a f = .ok bs' ↔
      ∃ n, hfind bs.heap a = some n ∧ bs' = { bs with heap := hset bs.heap a (f n) } := by
  unfold writeN
  cases hfind bs.heap a <;> simp [eq_comm]

/-! ## Claim C7: precondition checks of allocate and deallocate -/

/-- C7: `allocate(nPages)` fails its precondition assertions for every
`nPages` outside `[1, 1024]`, and `deallocate(address, nPages)` fails for
every `nPages ≠ 1` and for every non-page-aligned `address`. -/
theorem c7_precondition_checks :
    (∀ (s : PoolState) (n : Nat), ¬(1 ≤ n ∧ n ≤ 1024) →
      allocate s n = .error .assertFail) ∧
    (∀ (s : PoolState) (a n : Nat),
      n ≠ 1 ∨ (a >>> s.pageShift) <<< s.pageShift ≠ a →
      deallocate s a n = .error .assertFail) := by
  constructor
  · intro s n h
    unfold allocate
    rcases Nat.lt_or_ge n 1 with h1 | h1
    · rw [if_pos h1]
    · rw [if_neg (by omega), if_pos (by omega)]
  · intro s a n h
    unfold deallocate
    by_cases h1 : n = 1
    · rcases h with h | h
      · exact absurd h1 h
      · rw [if_neg (by simp [h1]), if_pos h]
    · rw [if_pos h1]

/-- C7 witness: `allocate(0)`, `allocate(1025)`, `deallocate(·, 2)` and an
unaligned `deallocate` all fail the assertion, on a concrete pool. -/
theorem c7_witness :
    allocate pool2048 0 = .error .assertFail ∧
    allocate pool2048 1025 = .error .assertFail ∧
    deallocate pool2048 0 2 = .error .assertFail ∧
    deallocate pool2048 5 1 = .error .assertFail :=
  ⟨c7_precondition_checks.1 pool2048 0 (by decide),
   c7_precondition_checks.1 pool2048 1025 (by decide),
   c7_precondition_checks.2 pool2048 0 2 (Or.inl (by decide)),
   c7_precondition_checks.2 pool2048 5 1 (Or.inr (by decide))⟩

/-! ## Claim C6: order-10 exhaustion is an assertion failure -/

/-- C6: invoking `find_buddy` at order 10 with an empty order-10 list makes
the escalation step enter order 11, where `assert(order <= 10)` fails: the
operation aborts with an explicit assertion failure (out of memory) and
never returns from an order above 10. -/
theorem c6_order10_exhaustion (bs : BuddyState) (f : Nat)
    (h : getHead bs 10 = PtrV.null) :
    find_buddy (f + 2) 10 bs = .error .assertFail := by
  unfold find_buddy
  rw [if_neg (by omega), h]
  unfold find_buddy
  rw [if_pos (by omega)]
  rfl

/-- C6 witness: the concrete exhausted 1024-page pool. -/
theorem c6_witness :
    getHead poolExhausted.buddy 10 = PtrV.null ∧
    find_buddy 12 10 poolExhausted.buddy = .error .assertFail :=
  ⟨by decide, c6_order10_exhaustion poolExhausted.buddy 10 (by decide)⟩

/-! ## Claim C8: allocate/deallocate never touch the page counters -/

/-- C8: neither `allocate` nor `deallocate` modifies `freePageNum` (or
`startPageNum`, or `_totalPages`), so `allocatedPages()` and `freePages()`
are computed from the unchanged counter before and after every call. -/
theorem c8_counter_frame :
    (∀ (s : PoolState) (n : Nat) (r : Nat × PoolState), allocate s n = .ok r →
      r.2.freePageNum = s.freePageNum ∧ r.2.startPageNum = s.startPageNum ∧
      r.2._totalPages = s._totalPages ∧
      allocatedPages r.2 = allocatedPages s ∧ freePages r.2 = freePages s) ∧
    (∀ (s : PoolState) (a n : Nat) (s' : PoolState), deallocate s a n = .ok s' →
      s'.freePageNum = s.freePageNum ∧ s'.startPageNum = s.startPageNum ∧
      s'._totalPages = s._totalPages ∧
      allocatedPages s' = allocatedPages s ∧ freePages s' = freePages s) := by
  constructor
  · intro s n r h
    unfold allocate at h
    split at h
    · exact absurd h (by simp)
    split at h
    · exact absurd h (by simp)
    simp only [M_bind_ok] at h
    obtain ⟨p1, _, p2, _, p3, _, p4, _, h⟩ := h
    injection h with h
    rw [← h]
    exact ⟨rfl, rfl, rfl, rfl, rfl⟩
  · intro s a n s' h
    unfold deallocate at h
    split at h
    · exact absurd h (by simp)
    split at h
    · exact absurd h (by simp)
    simp only [M_bind_ok] at h
    obtain ⟨p1, _, p2, _, h⟩ := h
    injection h with h
    rw [← h]
    exact ⟨rfl, rfl, rfl, rfl, rfl⟩

/-- C8 witness: a concrete successful allocate and deallocate leave the
counters unchanged. -/
theorem c8_witness :
    allocate pool2048 1 = .ok (0, pool2048a) ∧
    pool2048a.freePageNum = pool2048.freePageNum ∧
    deallocate pool2048a 4096 1 = .ok pool2048b ∧
    pool2048b.freePageNum = pool2048a.freePageNum :=
  ⟨by decide,
   (c8_counter_frame.1 pool2048 1 (0, pool2048a) (by decide)).1,
   by decide,
   (c8_counter_frame.2 pool2048a 4096 1 pool2048b (by decide)).1⟩

/-! ## Claim C2: the address returned by allocate -/

/-- C2 (amended): a successful `allocate` returns the acquired block's
pool-relative `startOffset` shifted by `pageShift` — `startPageNum` is
*not* added to the returned value. -/
theorem c2_relative_address (s : PoolState) (n : Nat) (r : Nat × PoolState)
    (h : allocate s n = .ok r) :
    ∃ bA bs nd st,
      find_buddy 12 (orderLoop 12 0 n) s.buddy = .ok (bA, bs) ∧
      hfind bs.heap bA = some nd ∧ nd.start = some st ∧
      r.1 = st <<< s.pageShift := by
  unfold allocate at h
  split at h
  · exact absurd h (by simp)
  split at h
  · exact absurd h (by simp)
  simp only [M_bind_ok] at h
  obtain ⟨p1, hfb, p2, hrn, p3, hst, p4, hfr, h⟩ := h
  injection h with h
  exact ⟨p1.1, p1.2, p2, p3, hfb, readNode_ok.mp hrn, valOf_ok.mp hst,
    by rw [← h]⟩

/-- C2 witness: the general theorem applied to the concrete 2048-page pool. -/
theorem c2_witness :
    ∃ bA bs nd st,
      find_buddy 12 (orderLoop 12 0 1) pool2048.buddy = .ok (bA, bs) ∧
      hfind bs.heap bA = some nd ∧ nd.start = some st ∧
      (0 : Nat) = st <<< pool2048.pageShift :=
  c2_relative_address pool2048 1 (0, pool2048a) (by decide)

/-- C2 counterexample: on a pool based at address `0x1000`
(`startPageNum = 1`), `allocate(1)` returns `0x0`, not
`(startPageNumber + startOffset) << pageShift = 0x1000`: the claimed
absolute-address formula is false on the code. -/
theorem c2_counterexample :
    mkPoolM 12 4096 (4096 + 2048 * 4096) = .ok poolShifted ∧
    poolShifted.startPageNum = 1 ∧
    (allocate poolShifted 1).map Prod.fst = .ok 0 ∧
    (0 : Nat) ≠ (poolShifted.startPageNum + 0) <<< poolShifted.pageShift := by
  decide

/-! ## Claim C3: the concrete 2048-page scenario -/

/-- C3: construction of the 2048-page pool yields exactly the two order-10
blocks at offsets 0 and 1024, and `allocate(1)` returns `0x0` leaving one
free block at each order 0..9 (offset `2^k`, covering offsets 1..1023)
plus the order-10 block at 1024 — but the following `deallocate(0x0, 1)`
aborts with an uninitialized-memory read: `deallocate` mallocs the unit
block without assigning `next`/`prev`, and the left-buddy coalescing step
then branches on the uninitialized `b->prev`.  The cascading re-merge the
claim describes never happens. -/
theorem c3_scenario :
    mkPoolM 12 0 (2048 * 4096) = .ok pool2048 ∧
    orderList pool2048.buddy 20 10 = some [(0, 1024), (1024, 1024)] ∧
    allocate pool2048 1 = .ok (0, pool2048a) ∧
    (List.range 10).map (fun o => orderList pool2048a.buddy 20 o) =
      (List.range 10).map (fun o => some [(2 ^ o, 2 ^ o)]) ∧
    orderList pool2048a.buddy 20 10 = some [(1024, 1024)] ∧
    deallocate pool2048a 0 1 = .error .undefRead := by
  decide

/-! ## Claims C1 and C5: counterexamples -/

/-- C1 counterexample: in the reachable state after one `allocate(1)` on
the 2048-page pool, the free-block page sum is 2047 while
`allocatedPages()` is still 0 (the counter is never updated), so
Σ free + allocatedPages ≠ totalPages. -/
theorem c1_counterexample :
    mkPoolM 12 0 (2048 * 4096) = .ok pool2048 ∧
    allocate pool2048 1 = .ok (0, pool2048a) ∧
    freeBlockSum pool2048a.buddy 20 = some 2047 ∧
    allocatedPages pool2048a = 0 ∧ totalPages pool2048a = 2048 ∧
    (2047 : Int) + allocatedPages pool2048a ≠ (totalPages pool2048a : Int) := by
  decide

/-- C5 counterexample: from the 2048-page pool after `allocate(1)` (order-0
list `[(1,1)]`), the call `deallocate(0x1000, 1)` — page 1, an address the
code accepts — appends a second block with the same `startOffset`, leaving
the order-0 list `[(1,1), (1,1)]`: not strictly increasing, and the two
blocks overlap. -/
theorem c5_counterexample :
    mkPoolM 12 0 (2048 * 4096) = .ok pool2048 ∧
    allocate pool2048 1 = .ok (0, pool2048a) ∧
    deallocate pool2048a 4096 1 = .ok pool2048b ∧
    orderList pool2048b.buddy 20 0 = some [(1, 1), (1, 1)] ∧
    ¬ChainOrdered [(1, 1), (1, 1)] := by
  decide

/-! ## Claim C9: snapshot and restore -/

theorem unserializePool_some {s : PoolState} {cp : String → Option Nat} {s' : PoolState}
    (h : unserializePool s cp = some s') :
    s'.buddy = s.buddy ∧
    cp "page_shift" = some s'.pageShift ∧ cp "start_page" = some s'.startPageNum ∧
    cp "free_page_num" = some s'.freePageNum ∧ cp "total_pages" = some s'._totalPages := by
  unfold unserializePool at h
  cases h1 : cp "page_shift" with
  | none => rw [h1] at h; exact absurd h (by simp)
  | some ps =>
    rw [h1] at h
    cases h2 : cp "start_page" with
    | none => rw [h2] at h; exact absurd h (by simp)
    | some sp =>
      rw [h2] at h
      cases h3 : cp "free_page_num" with
      | none => rw [h3] at h; exact absurd h (by simp)
      | some fp =>
        rw [h3] at h
        cases h4 : cp "total_pages" with
        | none => rw [h4] at h; exact absurd h (by simp)
        | some tp =>
          rw [h4] at h
          injection h with h
          rw [← h]
          exact ⟨rfl, rfl, rfl, rfl, rfl⟩

theorem buildPools_spec (cp : String → Option Nat) :
    ∀ (k i : Nat) (l : List PoolState), buildPools cp i k = some l →
      l.length = k ∧ ∀ j, j < k → l.get? j =
        unserializePool defaultPool fun key =>
          cp ("mempools." ++ poolSection (i + j) ++ "." ++ key) := by
  intro k
  induction k with
  | zero =>
    intro i l h
    unfold buildPools at h
    injection h with h
    rw [← h]
    exact ⟨rfl, fun j hj => absurd hj (by omega)⟩
  | succ k ih =>
    intro i l h
    unfold buildPools at h
    cases h1 : unserializePool defaultPool fun key =>
        cp ("mempools." ++ poolSection i ++ "." ++ key) with
    | none => rw [h1] at h; exact absurd h (by simp)
    | some p =>
      rw [h1] at h
      cases h2 : buildPools cp (i + 1) k with
      | none => rw [h2] at h; exact absurd h (by simp)
      | some rest =>
        rw [h2] at h
        injection h with h
        obtain ⟨hlen, hget⟩ := ih (i + 1) rest h2
        constructor
        · rw [← h]; simp [hlen]
        · intro j hj
          rw [← h]
          cases j with
          | zero => simpa using h1.symm
          | succ j =>
            have := hget j (by omega)
            simpa [Nat.add_assoc, Nat.add_comm 1 j] using this

/-- C9: a pool snapshot writes exactly the four scalars `page_shift`,
`start_page`, `free_page_num`, `total_pages` (in order); pool restore reads
exactly those four and leaves the buddy free-list state untouched; the
registry snapshot writes the pool count followed by each pool's snapshot in
order; registry restore erases the previous pool sequence (the result does
not depend on it) and rebuilds exactly `num_pools` pools from the per-pool
sections, in order. -/
theorem c9_snapshot :
    (∀ s : PoolState, serializePool s =
      [("page_shift", s.pageShift), ("start_page", s.startPageNum),
       ("free_page_num", s.freePageNum), ("total_pages", s._totalPages)]) ∧
    (∀ (s : PoolState) (cp : String → Option Nat) (s' : PoolState),
      unserializePool s cp = some s' →
      s'.buddy = s.buddy ∧
      cp "page_shift" = some s'.pageShift ∧ cp "start_page" = some s'.startPageNum ∧
      cp "free_page_num" = some s'.freePageNum ∧ cp "total_pages" = some s'._totalPages) ∧
    (∀ m : PoolsState, serializePools m =
      ("mempools.num_pools", m.pools.length) ::
        m.pools.enum.flatMap fun p => (serializePool p.2).map fun kv =>
          ("mempools." ++ poolSection p.1 ++ "." ++ kv.1, kv.2)) ∧
    (∀ (m : PoolsState) (cp : String → Option Nat) (m' : PoolsState),
      unserializePools m cp = some m' →
      ∃ n, cp "mempools.num_pools" = some n ∧ m'.pools.length = n ∧
        (∀ j, j < n → m'.pools.get? j =
          unserializePool defaultPool fun key =>
            cp ("mempools." ++ poolSection j ++ "." ++ key)) ∧
        (∀ m₂ : PoolsState, unserializePools m₂ cp = some { m₂ with pools := m'.pools })) := by
  refine ⟨fun s => rfl, fun s cp s' h => unserializePool_some h, fun m => rfl, ?_⟩
  intro m cp m' h
  unfold unserializePools at h
  cases h1 : cp "mempools.num_pools" with
  | none => rw [h1] at h; exact absurd h (by simp)
  | some n =>
    rw [h1] at h
    replace h : (buildPools cp 0 n).bind
        (fun ps => some { m with pools := ps }) = some m' := h
    cases h2 : buildPools cp 0 n with
    | none => rw [h2] at h; exact absurd h (by simp)
    | some ps =>
      rw [h2] at h
      injection h with h
      obtain ⟨hlen, hget⟩ := buildPools_spec cp n 0 ps h2
      have hp : m'.pools = ps := by rw [← h]
      refine ⟨n, rfl, by rw [hp]; exact hlen, ?_, ?_⟩
      · intro j hj
        rw [hp]
        simpa using hget j hj
      · intro m₂
        unfold unserializePools
        rw [h1]
        show ((buildPools cp 0 n).bind
            fun ps => some ({ m₂ with pools := ps } : PoolsState)) =
          some ({ m₂ with pools := m'.pools } : PoolsState)
        rw [h2, hp]
        rfl

/-- C9 witness: restoring the one-pool checkpoint `cpEx` over a registry
that previously held `pool2048`. -/
theorem c9_witness :
    ∃ n, cpEx "mempools.num_pools" = some n ∧ poolsEx2.pools.length = n ∧
      (∀ j, j < n → poolsEx2.pools.get? j =
        unserializePool defaultPool fun key =>
          cpEx ("mempools." ++ poolSection j ++ "." ++ key)) ∧
      (∀ m₂ : PoolsState, unserializePools m₂ cpEx = some { m₂ with pools := poolsEx2.pools }) :=
  c9_snapshot.2.2.2 poolsEx cpEx poolsEx2 (by decide)

/-! ## Heap and chain lemmas -/

theorem hfind_hset_self {h : Heap} {a : Nat} {m : BuddyNode} (hm : hfind h a = some m)
    (n : BuddyNode) : hfind (hset h a n) a = some n := by
  induction h with
  | nil => simp [hfind] at hm
  | cons p t ih =>
    by_cases hpa : p.1 = a
    · simp [hfind, hset, hpa]
    · simp only [hfind, hset, if_neg hpa] at hm ⊢
      exact ih hm

theorem hfind_hset_ne {h : Heap} {a x : Nat} (hax : a ≠ x) (n : BuddyNode) :
    hfind (hset h a n) x = hfind h x := by
  induction h with
  | nil => simp [hfind, hset]
  | cons p t ih =>
    by_cases hpa : p.1 = a
    · simp only [hset, if_pos hpa, hfind]
      rw [if_neg (by omega), if_neg (by omega)]
    · simp only [hset, if_neg hpa, hfind]
      by_cases hpx : p.1 = x
      · rw [if_pos hpx, if_pos hpx]
      · rw [if_neg hpx, if_neg hpx]
        exact ih

theorem hfind_hset_isSome {h : Heap} {a x : Nat} (n : BuddyNode) :
    (hfind (hset h a n) x).isSome = (hfind h x).isSome := by
  induction h with
  | nil => simp [hfind, hset]
  | cons p t ih =>
    by_cases hpa : p.1 = a
    · simp only [hset, if_pos hpa, hfind]
      by_cases hpx : p.1 = x <;> simp [hpx]
    · simp only [hset, if_neg hpa, hfind]
      by_cases hpx : p.1 = x <;> simp [hpx, ih]

theorem hset_length {h : Heap} {a : Nat} {n : BuddyNode} :
    (hset h a n).length = h.length := by
  induction h with
  | nil => rfl
  | cons p t ih =>
    by_cases hpa : p.1 = a <;> simp [hset, hpa, ih]

theorem hfind_hrem_ne {h : Heap} {a x : Nat} (hax : a ≠ x) :
    hfind (hrem h a) x = hfind h x := by
  induction h with
  | nil => rfl
  | cons p t ih =>
    by_cases hpa : p.1 = a
    · simp only [hrem, if_pos hpa, hfind]
      rw [if_neg (by omega)]
    · simp only [hrem, if_neg hpa, hfind]
      by_cases hpx : p.1 = x
      · rw [if_pos hpx, if_pos hpx]
      · rw [if_neg hpx, if_neg hpx]
        exact ih

theorem coreAgree_refl (h : Heap) : coreAgree h h := fun _ => rfl

theorem coreAgree_trans {h₁ h₂ h₃ : Heap} (a : coreAgree h₁ h₂) (b : coreAgree h₂ h₃) :
    coreAgree h₁ h₃ := fun x => (a x).trans (b x)

/-- Writing only the `prev` field of a live node leaves every core
unchanged. -/
theorem coreAgree_prevWrite {h : Heap} {a : Nat} {m : BuddyNode} (hm : hfind h a = some m)
    (pb : PtrV) : coreAgree h (hset h a { m with prev := pb }) := by
  intro x
  by_cases hax : a = x
  · rw [← hax, hm, hfind_hset_self hm]
    rfl
  · rw [hfind_hset_ne hax]

theorem chainV_congr {h₁ h₂ : Heap} (hc : coreAgree h₁ h₂) :
    ∀ {p : PtrV} {l : List (Nat × Nat × Nat)}, ChainV h₁ p l → ChainV h₂ p l := by
  intro p l hch
  induction hch with
  | nil => exact ChainV.nil
  | @cons a st sz n t hf hst hsz _ ih =>
    have := hc a
    rw [hf] at this
    cases h2 : hfind h₂ a with
    | none => rw [h2] at this; exact absurd this (by simp)
    | some n₂ =>
      rw [h2] at this
      simp only [Option.map_some'] at this
      injection this with this
      have hstart : n₂.start = some st := by
        have := congrArg (fun t => t.1) this
        simpa [nodeCore] using hst ▸ this.symm
      have hsize : n₂.size = some sz := by
        have := congrArg (fun t => t.2.1) this
        simpa [nodeCore] using hsz ▸ this.symm
      have hnext : n₂.next = n.next := by
        have := congrArg (fun t => t.2.2) this
        simpa [nodeCore] using this.symm
      exact ChainV.cons h2 hstart hsize (hnext ▸ ih)

/-- A chain never starts at an uninitialized pointer. -/
theorem chainV_ne_undef {h : Heap} {p : PtrV} {l : List (Nat × Nat × Nat)}
    (hch : ChainV h p l) : p ≠ PtrV.undef := by
  cases hch <;> simp

/-- Adding a binding at a fresh address does not disturb existing chains. -/
theorem chainV_extend {h : Heap} {fr : Nat} {x : BuddyNode} (hlt : HeapLt h fr) :
    ∀ {p : PtrV} {l : List (Nat × Nat × Nat)}, ChainV h p l → ChainV ((fr, x) :: h) p l := by
  intro p l hch
  induction hch with
  | nil => exact ChainV.nil
  | @cons a st sz n t hf hst hsz _ ih =>
    have ha : a < fr := hlt a n hf
    refine ChainV.cons ?_ hst hsz ih
    simp only [hfind, if_neg (by omega : ¬ fr = a)]
    exact hf

/-- Converting a `ChainV` certificate into a `chainSS` observation. -/
theorem chainV_chainSS {h : Heap} :
    ∀ {p : PtrV} {l : List (Nat × Nat × Nat)}, ChainV h p l →
      ∀ f, l.length < f → chainSS h f p = some (chainVals l) := by
  intro p l hch
  induction hch with
  | nil => intro f _; cases f <;> rfl
  | @cons a st sz n t hf hst hsz _ ih =>
    intro f hlen
    cases f with
    | zero => omega
    | succ f =>
      show chainSS h (f + 1) (PtrV.node a) = _
      unfold chainSS
      rw [hf, Option.some_bind', hst, Option.some_bind', hsz, Option.some_bind',
        ih f (by simpa using Nat.lt_of_succ_lt_succ hlen)]
      rfl

/-! ## Head-array lemmas -/

theorem getD_replicate_null {n o : Nat} :
    (List.replicate n PtrV.null).getD o PtrV.null = PtrV.null := by
  rcases Nat.lt_or_ge o n with h | h
  · rw [List.getD_eq_getElem _ _ (by simpa using h)]
    simp
  · rw [List.getD_eq_default _ _ (by simpa using h)]

theorem getD_set_self {l : List PtrV} {o : Nat} {v : PtrV} (h : o < l.length) :
    (l.set o v).getD o PtrV.null = v := by
  rw [List.getD_eq_getElem _ _ (by simpa using h)]
  simp [List.getElem_set_self]

theorem getD_set_ne {l : List PtrV} {o o' : Nat} {v : PtrV} (h : o ≠ o') :
    (l.set o v).getD o' PtrV.null = l.getD o' PtrV.null := by
  rcases Nat.lt_or_ge o' l.length with h2 | h2
  · rw [List.getD_eq_getElem _ _ (by simpa using h2), List.getD_eq_getElem _ _ h2]
    exact List.getElem_set_ne h _
  · rw [List.getD_eq_default _ _ (by simpa using h2),
      List.getD_eq_default _ _ (by simpa using h2)]

theorem power2_eq (n : Nat) : power2 n = 2 ^ n := by
  induction n with
  | zero => rfl
  | succ n ih => rw [pow_succ, ← ih]; rfl

/-! ## The constructor builds the order-10 seed chain -/

/-- The first constructor loop: `k` iterations starting at fresh address
`fr` in front of a chain `l` hanging from `nb` produce the blocks
`0·1024, …, (k−1)·1024` (size 1024 each, at descending addresses
`fr+k−1 … fr`) followed by `l`. -/
theorem mkBuddyLoop_chainV :
    ∀ (k : Nat) (nb : PtrV) (h : Heap) (fr : Nat) (l : List (Nat × Nat × Nat)),
      HeapLt h fr → ChainV h nb l →
      (mkBuddyLoop k nb h fr).2.2 = fr + k ∧
      (mkBuddyLoop k nb h fr).2.1.length = h.length + k ∧
      HeapLt (mkBuddyLoop k nb h fr).2.1 (fr + k) ∧
      ChainV (mkBuddyLoop k nb h fr).2.1 (mkBuddyLoop k nb h fr).1
        (((List.range k).map fun j => (fr + k - 1 - j, j * 1024, 1024)) ++ l) := by
  intro k
  induction k with
  | zero =>
    intro nb h fr l hlt hch
    exact ⟨rfl, rfl, by simpa using hlt, by simpa using hch⟩
  | succ k ih =>
    intro nb h fr l hlt hch
    have hstep : mkBuddyLoop (k + 1) nb h fr =
        mkBuddyLoop k (PtrV.node fr)
          ((fr, { size := some 1024, start := some (k * 1024), next := nb,
                  prev := PtrV.undef }) :: h) (fr + 1) := rfl
    rw [hstep]
    have hlt2 : HeapLt ((fr, { size := some 1024, start := some (k * 1024), next := nb, prev := PtrV.undef }) :: h) (fr + 1) := by
      intro a n hfd
      simp only [hfind] at hfd
      by_cases hfa : fr = a
      · omega
      · rw [if_neg hfa] at hfd
        exact Nat.lt_succ_of_lt (hlt a n hfd)
    have hch2 : ChainV ((fr, { size := some 1024, start := some (k * 1024), next := nb, prev := PtrV.undef }) :: h) (PtrV.node fr) ((fr, k * 1024, 1024) :: l) :=
      @ChainV.cons _ fr (k * 1024) 1024
        { size := some 1024, start := some (k * 1024), next := nb, prev := PtrV.undef } l
        (by simp [hfind]) rfl rfl (chainV_extend hlt hch)
    obtain ⟨e1, e2, e3, e4⟩ := ih (PtrV.node fr) _ (fr + 1) ((fr, k * 1024, 1024) :: l) hlt2 hch2
    refine ⟨?_, ?_, ?_, ?_⟩
    · rw [e1]
      omega
    · rw [e2]
      simp
      omega
    · have hq : fr + 1 + k = fr + (k + 1) := by omega
      rw [← hq]
      exact e3
    · have hlist : ((List.range (k + 1)).map fun j => (fr + (k + 1) - 1 - j, j * 1024, 1024)) ++ l =
          ((List.range k).map fun j => (fr + 1 + k - 1 - j, j * 1024, 1024)) ++
            ((fr, k * 1024, 1024) :: l) := by
        rw [List.range_succ, List.map_append, List.map_singleton, List.append_assoc]
        have h1 : (fun (j : Nat) => ((fr + (k + 1) - 1 - j, j * 1024, 1024) : Nat × Nat × Nat)) =
            fun j => (fr + 1 + k - 1 - j, j * 1024, 1024) := by
          funext j
          have hj : fr + (k + 1) - 1 - j = fr + 1 + k - 1 - j := by omega
          rw [hj]
        have h2 : fr + (k + 1) - 1 - k = fr := by omega
        rw [h1, h2]
        rfl
      rw [hlist]
      exact e4

/-- The second constructor loop succeeds on any well-formed chain and only
changes `prev` fields (heap cores, the heads array, the allocation frontier
and the heap size are preserved). -/
theorem setPrevLoop_ok :
    ∀ (l : List (Nat × Nat × Nat)) (f : Nat) (p pb : PtrV) (bs : BuddyState),
      ChainV bs.heap p l → l.length < f →
      ∃ bs', setPrevLoop f p pb bs = .ok bs' ∧
        coreAgree bs.heap bs'.heap ∧ bs'.heads = bs.heads ∧ bs'.nextA = bs.nextA ∧
        bs'.heap.length = bs.heap.length := by
  intro l
  induction l with
  | nil =>
    intro f p pb bs hch hf
    cases hch
    cases f with
    | zero => omega
    | succ f => exact ⟨bs, rfl, coreAgree_refl _, rfl, rfl, rfl⟩
  | cons x t ih =>
    intro f p pb bs hch hf
    cases hch with
    | @cons a st sz n _ hfd hst hsz htail =>
      cases f with
      | zero => omega
      | succ f =>
        have hrd : readNode bs a = .ok n := readNode_ok.mpr hfd
        have hwr : writeN bs a (fun m => { m with prev := pb }) =
            .ok { bs with heap := hset bs.heap a { n with prev := pb } } := by
          unfold writeN
          rw [hfd]
        have hag : coreAgree bs.heap
            (hset bs.heap a { n with prev := pb }) := coreAgree_prevWrite hfd pb
        have hch₁ : ChainV (hset bs.heap a { n with prev := pb }) n.next t :=
          chainV_congr hag htail
        have hnx : ptrOf n.next = .ok n.next := by
          have hnu := chainV_ne_undef htail
          cases hn : n.next with
          | undef => exact absurd hn hnu
          | null => rfl
          | node c => rfl
        obtain ⟨bs₂, hrun, hag₂, hh₂, hn₂, hl₂⟩ :=
          ih f n.next (PtrV.node a) { bs with heap := hset bs.heap a { n with prev := pb } }
            hch₁ (by simpa using hf)
        refine ⟨bs₂, ?_, coreAgree_trans hag hag₂, by rw [hh₂],
          by rw [hn₂], by rw [hl₂]; exact hset_length⟩
        show (do
          let n ← readNode bs a
          let bs ← writeN bs a (fun m => { m with prev := pb })
          let nx ← ptrOf n.next
          setPrevLoop f nx (PtrV.node a) bs) = .ok bs₂
        rw [M_bind_ok]
        refine ⟨n, hrd, ?_⟩
        rw [M_bind_ok]
        refine ⟨_, hwr, ?_⟩
        rw [M_bind_ok]
        exact ⟨n.next, hnx, hrun⟩

/-! ## Claim C1 (amended): the free-page sum at construction -/

theorem heads_pool_lt {x : PtrV} {o : Nat} (ho : o < 10) :
    (List.replicate 10 PtrV.null ++ [x]).getD o PtrV.null = PtrV.null := by
  interval_cases o <;> rfl

theorem heads_pool_10 (x : PtrV) :
    (List.replicate 10 PtrV.null ++ [x]).getD 10 PtrV.null = x := rfl

theorem freeBlockSum_eval {bs : BuddyState} {f : Nat} {v : Nat → List (Nat × Nat)}
    (hv : ∀ o, o ≤ 10 → orderList bs f o = some (v o)) :
    freeBlockSum bs f = some (((List.range 11).map fun o => (v o).length * 2 ^ o).sum) := by
  unfold freeBlockSum
  rw [show List.range 11 = [0, 1, 2, 3, 4, 5, 6, 7, 8, 9, 10] from rfl]
  simp only [List.mapM_cons, List.mapM_nil, hv 0 (by omega), hv 1 (by omega),
    hv 2 (by omega), hv 3 (by omega), hv 4 (by omega), hv 5 (by omega), hv 6 (by omega),
    hv 7 (by omega), hv 8 (by omega), hv 9 (by omega), hv 10 (by omega),
    Option.map_some', Option.some_bind', List.map_cons, List.map_nil]
  rfl

set_option maxRecDepth 4000 in
/-- C1 (amended): immediately after construction, Σ over orders of
(free-block count × 2^order) plus `allocatedPages()` equals
`1024·⌊totalPages/1024⌋` — the `totalPages % 1024` remainder is never
represented by any block, and `allocatedPages()` is 0 (and stays 0 under
allocate/deallocate, see C8), so the claimed identity with `totalPages`
only holds at construction of remainder-free pools and breaks in later
reachable states (see the counterexample). -/
theorem c1_amended (page_shift ptr limit : Nat) (s : PoolState)
    (h : mkPoolM page_shift ptr limit = .ok s) :
    ∃ f m, freeBlockSum s.buddy f = some m ∧
      (m : Int) + allocatedPages s = 1024 * ((totalPages s / 1024 : Nat) : Int) := by
  unfold mkPoolM at h
  by_cases h0 : (limit - ptr) >>> page_shift = 0
  · rw [if_pos h0] at h
    exact absurd h (by simp)
  · rw [if_neg h0] at h
    simp only [M_bind_ok] at h
    obtain ⟨bs₁, hrun, h⟩ := h
    injection h with h
    obtain ⟨e1, e2, e3, e4⟩ := mkBuddyLoop_chainV ((limit - ptr) >>> page_shift / 1024)
      PtrV.null [] 0 [] (fun a n hfd => by simp [hfind] at hfd) ChainV.nil
    set n := (limit - ptr) >>> page_shift / 1024 with hn
    set r := mkBuddyLoop n PtrV.null [] 0 with hr
    have hLlen : (((List.range n).map fun j => (0 + n - 1 - j, j * 1024, 1024)) ++
        ([] : List (Nat × Nat × Nat))).length = n := by simp
    obtain ⟨bs₂, hrun', hag, hh, hnA, hl⟩ := setPrevLoop_ok _ (r.2.1.length + 1) r.1 PtrV.null
      { heap := r.2.1, nextA := r.2.2, heads := List.replicate 10 PtrV.null ++ [r.1] }
      e4 (by rw [hLlen, e2]; omega)
    rw [hrun'] at hrun
    injection hrun with hrun
    -- the resulting pool
    rw [← h, ← hrun]
    have hchain10 : ChainV bs₂.heap r.1
        (((List.range n).map fun j => (0 + n - 1 - j, j * 1024, 1024)) ++ []) :=
      chainV_congr hag e4
    have hss10 : chainSS bs₂.heap (n + 1) r.1 =
        some (chainVals (((List.range n).map fun j => (0 + n - 1 - j, j * 1024, 1024)) ++ [])) :=
      chainV_chainSS hchain10 (n + 1) (by rw [hLlen]; omega)
    have hv : ∀ o, o ≤ 10 → orderList bs₂ (n + 1) o =
        some (if o = 10 then
          chainVals (((List.range n).map fun j => (0 + n - 1 - j, j * 1024, 1024)) ++ [])
        else []) := by
      intro o ho
      unfold orderList getHead
      rw [hh]
      by_cases h10 : o = 10
      · subst h10
        show chainSS bs₂.heap (n + 1)
          ((List.replicate 10 PtrV.null ++ [r.1]).getD 10 PtrV.null) = _
        rw [heads_pool_10, if_pos rfl]
        exact hss10
      · show chainSS bs₂.heap (n + 1)
          ((List.replicate 10 PtrV.null ++ [r.1]).getD o PtrV.null) = _
        rw [heads_pool_lt (by omega), if_neg h10]
        rfl
    refine ⟨n + 1, _, freeBlockSum_eval hv, ?_⟩
    rw [show List.range 11 = [0, 1, 2, 3, 4, 5, 6, 7, 8, 9, 10] from rfl]
    simp only [List.map_cons, List.map_nil, List.sum_cons, List.sum_nil]
    norm_num
    have hvlen2 : (chainVals ((List.range n).map fun j =>
        (n - 1 - j, j * 1024, 1024))).length = n := by
      unfold chainVals
      simp
    rw [hvlen2]
    unfold allocatedPages totalPages
    dsimp only
    omega

/-- C1 witness: the general theorem applied to the 2048-page pool. -/
theorem c1_witness :
    ∃ f m, freeBlockSum pool2048.buddy f = some m ∧
      (m : Int) + allocatedPages pool2048 = 1024 * ((totalPages pool2048 / 1024 : Nat) : Int) :=
  c1_amended 12 0 (2048 * 4096) pool2048 (by decide)

/-! ## Claim C4: buddy-pair coalescing at the engine level -/


theorem M_bind_ok_eval {α β : Type} (a : α) (f : α → M β) :
    (Except.ok a : M α) >>= f = f a := rfl

theorem insert_buddy_emptyHead {f bA order : Nat} {bs : BuddyState}
    (h : getHead bs order = PtrV.null) :
    insert_buddy (f + 1) bA order bs = .ok (setHead bs order (PtrV.node bA)) := by
  unfold insert_buddy
  rw [h]

set_option maxRecDepth 10000 in
theorem c4aux_LR (k m : Nat) (hk : k < 10) :
    (releaseBlock emptyBS (m * 2 ^ (k + 1)) (2 ^ k) k >>= fun s =>
      releaseBlock s (m * 2 ^ (k + 1) + 2 ^ k) (2 ^ k) k) = .ok { heap := [(2, { size := some (2 ^ k * 2), start := some (m * 2 ^ (k + 1)), next := PtrV.null, prev := PtrV.null })], nextA := 3, heads := (List.replicate 11 PtrV.null).set (k + 1) (PtrV.node 2) } := by
  have e1 : (2 : Nat) ^ k > 0 := Nat.pos_pow_of_pos k (by omega)
  have e2 : ¬(k = 10) := by omega
  have e4 : ¬((m * 2 ^ (k + 1) + 2 ^ k) % power2 (k + 1) = 0) := by
    rw [power2_eq, Nat.add_comm, Nat.add_mul_mod_self_right,
      Nat.mod_eq_of_lt (Nat.pow_lt_pow_right (by omega) (by omega))]
    omega
  have e5 : (m * 2 ^ (k + 1) + 2 ^ k) - (m * 2 ^ (k + 1)) = 2 ^ k := Nat.add_sub_cancel_left _ _
  have e6 : ¬(m * 2 ^ (k + 1) > m * 2 ^ (k + 1) + 2 ^ k) := by omega
  have hh1 : getHead ({ heap := [(1, { size := some (2 ^ k), start := some (m * 2 ^ (k + 1) + 2 ^ k), next := PtrV.null, prev := PtrV.null }), (0, { size := some (2 ^ k), start := some (m * 2 ^ (k + 1)), next := PtrV.null, prev := PtrV.null })], nextA := 2, heads := (List.replicate 11 PtrV.null).set k (PtrV.node 0) } : BuddyState) k = PtrV.node 0 := getD_set_self (by simp; omega)
  have hh2 : getHead ({ heap := [(2, { size := some (2 ^ k * 2), start := some (m * 2 ^ (k + 1)), next := PtrV.null, prev := PtrV.null }), (1, { size := some (2 ^ k), start := some (m * 2 ^ (k + 1) + 2 ^ k), next := PtrV.null, prev := PtrV.node 0 }), (0, { size := some (2 ^ k), start := some (m * 2 ^ (k + 1)), next := PtrV.node 1, prev := PtrV.null })], nextA := 3, heads := List.replicate 11 PtrV.null } : BuddyState) (k + 1) = PtrV.null := getD_replicate_null
  have hA : releaseBlock emptyBS (m * 2 ^ (k + 1)) (2 ^ k) k = .ok { heap := [(0, { size := some (2 ^ k), start := some (m * 2 ^ (k + 1)), next := PtrV.null, prev := PtrV.null })], nextA := 1, heads := (List.replicate 11 PtrV.null).set k (PtrV.node 0) } := by
    unfold releaseBlock
    rw [M_bind_ok]
    refine ⟨_, rfl, ?_⟩
    rw [insert_buddy_emptyHead]
    · rfl
    · exact getD_replicate_null
  have hscan : scanLoop 3 1 k (PtrV.node 0) ({ heap := [(1, { size := some (2 ^ k), start := some (m * 2 ^ (k + 1) + 2 ^ k), next := PtrV.null, prev := PtrV.null }), (0, { size := some (2 ^ k), start := some (m * 2 ^ (k + 1)), next := PtrV.null, prev := PtrV.null })], nextA := 2, heads := (List.replicate 11 PtrV.null).set k (PtrV.node 0) } : BuddyState) = .ok { heap := [(1, { size := some (2 ^ k), start := some (m * 2 ^ (k + 1) + 2 ^ k), next := PtrV.null, prev := PtrV.node 0 }), (0, { size := some (2 ^ k), start := some (m * 2 ^ (k + 1)), next := PtrV.node 1, prev := PtrV.null })], nextA := 2, heads := (List.replicate 11 PtrV.null).set k (PtrV.node 0) } := by
    show scanLoop (2 + 1) 1 k (PtrV.node 0) _ = _
    unfold scanLoop
    simp [readNode, hfind, valOf, ptrOf, writeN, hset, M_bind_ok_eval, e6]
  have hins3 : insert_buddy 11 2 (k + 1) ({ heap := [(2, { size := some (2 ^ k * 2), start := some (m * 2 ^ (k + 1)), next := PtrV.null, prev := PtrV.null }), (1, { size := some (2 ^ k), start := some (m * 2 ^ (k + 1) + 2 ^ k), next := PtrV.null, prev := PtrV.node 0 }), (0, { size := some (2 ^ k), start := some (m * 2 ^ (k + 1)), next := PtrV.node 1, prev := PtrV.null })], nextA := 3, heads := List.replicate 11 PtrV.null } : BuddyState) = .ok { heap := [(2, { size := some (2 ^ k * 2), start := some (m * 2 ^ (k + 1)), next := PtrV.null, prev := PtrV.null }), (1, { size := some (2 ^ k), start := some (m * 2 ^ (k + 1) + 2 ^ k), next := PtrV.null, prev := PtrV.node 0 }), (0, { size := some (2 ^ k), start := some (m * 2 ^ (k + 1)), next := PtrV.node 1, prev := PtrV.null })], nextA := 3, heads := (List.replicate 11 PtrV.null).set (k + 1) (PtrV.node 2) } := by
    rw [insert_buddy_emptyHead hh2]
    rfl
  have hins2 : insert_buddy 12 1 k ({ heap := [(1, { size := some (2 ^ k), start := some (m * 2 ^ (k + 1) + 2 ^ k), next := PtrV.null, prev := PtrV.null }), (0, { size := some (2 ^ k), start := some (m * 2 ^ (k + 1)), next := PtrV.null, prev := PtrV.null })], nextA := 2, heads := (List.replicate 11 PtrV.null).set k (PtrV.node 0) } : BuddyState) = .ok { heap := [(2, { size := some (2 ^ k * 2), start := some (m * 2 ^ (k + 1)), next := PtrV.null, prev := PtrV.null })], nextA := 3, heads := (List.replicate 11 PtrV.null).set (k + 1) (PtrV.node 2) } := by
    show insert_buddy (11 + 1) 1 k _ = _
    unfold insert_buddy
    rw [hh1]
    simp [readNode, hfind, valOf, ptrOf, writeN, hset, freeN, hrem, mallocN, setHead,
      M_bind_ok_eval, hscan, hins3, e2, e4, e5, -List.reduceReplicate]
  have hB : releaseBlock ({ heap := [(0, { size := some (2 ^ k), start := some (m * 2 ^ (k + 1)), next := PtrV.null, prev := PtrV.null })], nextA := 1, heads := (List.replicate 11 PtrV.null).set k (PtrV.node 0) } : BuddyState) (m * 2 ^ (k + 1) + 2 ^ k) (2 ^ k) k = .ok { heap := [(2, { size := some (2 ^ k * 2), start := some (m * 2 ^ (k + 1)), next := PtrV.null, prev := PtrV.null })], nextA := 3, heads := (List.replicate 11 PtrV.null).set (k + 1) (PtrV.node 2) } := by
    unfold releaseBlock
    rw [M_bind_ok]
    refine ⟨_, rfl, ?_⟩
    show insert_buddy 12 1 k ({ heap := [(1, { size := some (2 ^ k), start := some (m * 2 ^ (k + 1) + 2 ^ k), next := PtrV.null, prev := PtrV.null }), (0, { size := some (2 ^ k), start := some (m * 2 ^ (k + 1)), next := PtrV.null, prev := PtrV.null })], nextA := 2, heads := (List.replicate 11 PtrV.null).set k (PtrV.node 0) } : BuddyState) = .ok { heap := [(2, { size := some (2 ^ k * 2), start := some (m * 2 ^ (k + 1)), next := PtrV.null, prev := PtrV.null })], nextA := 3, heads := (List.replicate 11 PtrV.null).set (k + 1) (PtrV.node 2) }
    exact hins2
  rw [M_bind_ok]
  exact ⟨_, hA, hB⟩

set_option maxRecDepth 10000 in
theorem c4aux_RL (k m : Nat) (hk : k < 10) :
    (releaseBlock emptyBS (m * 2 ^ (k + 1) + 2 ^ k) (2 ^ k) k >>= fun s =>
      releaseBlock s (m * 2 ^ (k + 1)) (2 ^ k) k) = .ok { heap := [(2, { size := some (2 ^ k * 2), start := some (m * 2 ^ (k + 1)), next := PtrV.null, prev := PtrV.null })], nextA := 3, heads := (List.replicate 11 PtrV.null).set (k + 1) (PtrV.node 2) } := by
  have e1 : (2 : Nat) ^ k > 0 := Nat.pos_pow_of_pos k (by omega)
  have e2 : ¬(k = 10) := by omega
  have e3 : (m * 2 ^ (k + 1)) % power2 (k + 1) = 0 := by
    rw [power2_eq]
    exact Nat.mul_mod_left m (2 ^ (k + 1))
  have e5 : (m * 2 ^ (k + 1) + 2 ^ k) - (m * 2 ^ (k + 1)) = 2 ^ k := Nat.add_sub_cancel_left _ _
  have e7 : (m * 2 ^ (k + 1)) < m * 2 ^ (k + 1) + 2 ^ k := by omega
  have hh1 : getHead ({ heap := [(1, { size := some (2 ^ k), start := some (m * 2 ^ (k + 1)), next := PtrV.null, prev := PtrV.null }), (0, { size := some (2 ^ k), start := some (m * 2 ^ (k + 1) + 2 ^ k), next := PtrV.null, prev := PtrV.null })], nextA := 2, heads := (List.replicate 11 PtrV.null).set k (PtrV.node 0) } : BuddyState) k = PtrV.node 0 := getD_set_self (by simp; omega)
  have hh2 : getHead ({ heap := [(2, { size := some (2 ^ k * 2), start := some (m * 2 ^ (k + 1)), next := PtrV.null, prev := PtrV.null }), (1, { size := some (2 ^ k), start := some (m * 2 ^ (k + 1)), next := PtrV.node 0, prev := PtrV.null }), (0, { size := some (2 ^ k), start := some (m * 2 ^ (k + 1) + 2 ^ k), next := PtrV.null, prev := PtrV.null })], nextA := 3, heads := List.replicate 11 PtrV.null } : BuddyState) (k + 1) = PtrV.null := getD_replicate_null
  have hA : releaseBlock emptyBS (m * 2 ^ (k + 1) + 2 ^ k) (2 ^ k) k = .ok { heap := [(0, { size := some (2 ^ k), start := some (m * 2 ^ (k + 1) + 2 ^ k), next := PtrV.null, prev := PtrV.null })], nextA := 1, heads := (List.replicate 11 PtrV.null).set k (PtrV.node 0) } := by
    unfold releaseBlock
    rw [M_bind_ok]
    refine ⟨_, rfl, ?_⟩
    rw [insert_buddy_emptyHead]
    · rfl
    · exact getD_replicate_null
  have hscan : scanLoop 3 1 k (PtrV.node 0) ({ heap := [(1, { size := some (2 ^ k), start := some (m * 2 ^ (k + 1)), next := PtrV.null, prev := PtrV.null }), (0, { size := some (2 ^ k), start := some (m * 2 ^ (k + 1) + 2 ^ k), next := PtrV.null, prev := PtrV.null })], nextA := 2, heads := (List.replicate 11 PtrV.null).set k (PtrV.node 0) } : BuddyState) = .ok { heap := [(1, { size := some (2 ^ k), start := some (m * 2 ^ (k + 1)), next := PtrV.node 0, prev := PtrV.null }), (0, { size := some (2 ^ k), start := some (m * 2 ^ (k + 1) + 2 ^ k), next := PtrV.null, prev := PtrV.null })], nextA := 2, heads := (List.replicate 11 PtrV.null).set k (PtrV.node 1) } := by
    show scanLoop (2 + 1) 1 k (PtrV.node 0) _ = _
    unfold scanLoop
    simp [readNode, hfind, valOf, ptrOf, writeN, hset, setHead, M_bind_ok_eval, e7,
      -List.reduceReplicate]
  have hins3 : insert_buddy 11 2 (k + 1) ({ heap := [(2, { size := some (2 ^ k * 2), start := some (m * 2 ^ (k + 1)), next := PtrV.null, prev := PtrV.null }), (1, { size := some (2 ^ k), start := some (m * 2 ^ (k + 1)), next := PtrV.node 0, prev := PtrV.null }), (0, { size := some (2 ^ k), start := some (m * 2 ^ (k + 1) + 2 ^ k), next := PtrV.null, prev := PtrV.null })], nextA := 3, heads := List.replicate 11 PtrV.null } : BuddyState) = .ok { heap := [(2, { size := some (2 ^ k * 2), start := some (m * 2 ^ (k + 1)), next := PtrV.null, prev := PtrV.null }), (1, { size := some (2 ^ k), start := some (m * 2 ^ (k + 1)), next := PtrV.node 0, prev := PtrV.null }), (0, { size := some (2 ^ k), start := some (m * 2 ^ (k + 1) + 2 ^ k), next := PtrV.null, prev := PtrV.null })], nextA := 3, heads := (List.replicate 11 PtrV.null).set (k + 1) (PtrV.node 2) } := by
    rw [insert_buddy_emptyHead hh2]
    rfl
  have hins2 : insert_buddy 12 1 k ({ heap := [(1, { size := some (2 ^ k), start := some (m * 2 ^ (k + 1)), next := PtrV.null, prev := PtrV.null }), (0, { size := some (2 ^ k), start := some (m * 2 ^ (k + 1) + 2 ^ k), next := PtrV.null, prev := PtrV.null })], nextA := 2, heads := (List.replicate 11 PtrV.null).set k (PtrV.node 0) } : BuddyState) = .ok { heap := [(2, { size := some (2 ^ k * 2), start := some (m * 2 ^ (k + 1)), next := PtrV.null, prev := PtrV.null })], nextA := 3, heads := (List.replicate 11 PtrV.null).set (k + 1) (PtrV.node 2) } := by
    show insert_buddy (11 + 1) 1 k _ = _
    unfold insert_buddy
    rw [hh1]
    simp [readNode, hfind, valOf, ptrOf, writeN, hset, freeN, hrem, mallocN, setHead,
      M_bind_ok_eval, hscan, hins3, e2, e3, e5, -List.reduceReplicate]
  have hB : releaseBlock ({ heap := [(0, { size := some (2 ^ k), start := some (m * 2 ^ (k + 1) + 2 ^ k), next := PtrV.null, prev := PtrV.null })], nextA := 1, heads := (List.replicate 11 PtrV.null).set k (PtrV.node 0) } : BuddyState) (m * 2 ^ (k + 1)) (2 ^ k) k = .ok { heap := [(2, { size := some (2 ^ k * 2), start := some (m * 2 ^ (k + 1)), next := PtrV.null, prev := PtrV.null })], nextA := 3, heads := (List.replicate 11 PtrV.null).set (k + 1) (PtrV.node 2) } := by
    unfold releaseBlock
    rw [M_bind_ok]
    refine ⟨_, rfl, ?_⟩
    show insert_buddy 12 1 k ({ heap := [(1, { size := some (2 ^ k), start := some (m * 2 ^ (k + 1)), next := PtrV.null, prev := PtrV.null }), (0, { size := some (2 ^ k), start := some (m * 2 ^ (k + 1) + 2 ^ k), next := PtrV.null, prev := PtrV.null })], nextA := 2, heads := (List.replicate 11 PtrV.null).set k (PtrV.node 0) } : BuddyState) = .ok { heap := [(2, { size := some (2 ^ k * 2), start := some (m * 2 ^ (k + 1)), next := PtrV.null, prev := PtrV.null })], nextA := 3, heads := (List.replicate 11 PtrV.null).set (k + 1) (PtrV.node 2) }
    exact hins2
  rw [M_bind_ok]
  exact ⟨_, hA, hB⟩


theorem c4aux_L (k m : Nat) :
    releaseBlock emptyBS (m * 2 ^ (k + 1)) (2 ^ k) k = .ok { heap := [(0, { size := some (2 ^ k), start := some (m * 2 ^ (k + 1)), next := PtrV.null, prev := PtrV.null })], nextA := 1, heads := (List.replicate 11 PtrV.null).set k (PtrV.node 0) } := by
  unfold releaseBlock
  rw [M_bind_ok]
  refine ⟨_, rfl, ?_⟩
  rw [insert_buddy_emptyHead]
  · rfl
  · exact getD_replicate_null

theorem c4aux_R (k m : Nat) :
    releaseBlock emptyBS (m * 2 ^ (k + 1) + 2 ^ k) (2 ^ k) k = .ok { heap := [(0, { size := some (2 ^ k), start := some (m * 2 ^ (k + 1) + 2 ^ k), next := PtrV.null, prev := PtrV.null })], nextA := 1, heads := (List.replicate 11 PtrV.null).set k (PtrV.node 0) } := by
  unfold releaseBlock
  rw [M_bind_ok]
  refine ⟨_, rfl, ?_⟩
  rw [insert_buddy_emptyHead]
  · rfl
  · exact getD_replicate_null

theorem c4aux_lists (k m : Nat) (hk : k < 10) :
    orderList ({ heap := [(2, { size := some (2 ^ k * 2), start := some (m * 2 ^ (k + 1)), next := PtrV.null, prev := PtrV.null })], nextA := 3, heads := (List.replicate 11 PtrV.null).set (k + 1) (PtrV.node 2) } : BuddyState) 2 k = some [] ∧
    orderList ({ heap := [(2, { size := some (2 ^ k * 2), start := some (m * 2 ^ (k + 1)), next := PtrV.null, prev := PtrV.null })], nextA := 3, heads := (List.replicate 11 PtrV.null).set (k + 1) (PtrV.node 2) } : BuddyState) 2 (k + 1) = some [(m * 2 ^ (k + 1), 2 ^ (k + 1))] ∧
    orderList ({ heap := [(0, { size := some (2 ^ k), start := some (m * 2 ^ (k + 1)), next := PtrV.null, prev := PtrV.null })], nextA := 1, heads := (List.replicate 11 PtrV.null).set k (PtrV.node 0) } : BuddyState) 2 k = some [(m * 2 ^ (k + 1), 2 ^ k)] ∧
    orderList ({ heap := [(0, { size := some (2 ^ k), start := some (m * 2 ^ (k + 1)), next := PtrV.null, prev := PtrV.null })], nextA := 1, heads := (List.replicate 11 PtrV.null).set k (PtrV.node 0) } : BuddyState) 2 (k + 1) = some [] ∧
    orderList ({ heap := [(0, { size := some (2 ^ k), start := some (m * 2 ^ (k + 1) + 2 ^ k), next := PtrV.null, prev := PtrV.null })], nextA := 1, heads := (List.replicate 11 PtrV.null).set k (PtrV.node 0) } : BuddyState) 2 k = some [(m * 2 ^ (k + 1) + 2 ^ k, 2 ^ k)] ∧
    orderList ({ heap := [(0, { size := some (2 ^ k), start := some (m * 2 ^ (k + 1) + 2 ^ k), next := PtrV.null, prev := PtrV.null })], nextA := 1, heads := (List.replicate 11 PtrV.null).set k (PtrV.node 0) } : BuddyState) 2 (k + 1) = some [] := by
  have hg1 : getHead ({ heap := [(2, { size := some (2 ^ k * 2), start := some (m * 2 ^ (k + 1)), next := PtrV.null, prev := PtrV.null })], nextA := 3, heads := (List.replicate 11 PtrV.null).set (k + 1) (PtrV.node 2) } : BuddyState) k = PtrV.null := by
    show ((List.replicate 11 PtrV.null).set (k + 1) (PtrV.node 2)).getD k PtrV.null = PtrV.null
    rw [getD_set_ne (by omega), getD_replicate_null]
  have hg2 : getHead ({ heap := [(2, { size := some (2 ^ k * 2), start := some (m * 2 ^ (k + 1)), next := PtrV.null, prev := PtrV.null })], nextA := 3, heads := (List.replicate 11 PtrV.null).set (k + 1) (PtrV.node 2) } : BuddyState) (k + 1) = PtrV.node 2 := getD_set_self (by simp; omega)
  have hg3 : getHead ({ heap := [(0, { size := some (2 ^ k), start := some (m * 2 ^ (k + 1)), next := PtrV.null, prev := PtrV.null })], nextA := 1, heads := (List.replicate 11 PtrV.null).set k (PtrV.node 0) } : BuddyState) k = PtrV.node 0 := getD_set_self (by simp; omega)
  have hg4 : getHead ({ heap := [(0, { size := some (2 ^ k), start := some (m * 2 ^ (k + 1)), next := PtrV.null, prev := PtrV.null })], nextA := 1, heads := (List.replicate 11 PtrV.null).set k (PtrV.node 0) } : BuddyState) (k + 1) = PtrV.null := by
    show ((List.replicate 11 PtrV.null).set k (PtrV.node 0)).getD (k + 1) PtrV.null = PtrV.null
    rw [getD_set_ne (by omega), getD_replicate_null]
  have hg5 : getHead ({ heap := [(0, { size := some (2 ^ k), start := some (m * 2 ^ (k + 1) + 2 ^ k), next := PtrV.null, prev := PtrV.null })], nextA := 1, heads := (List.replicate 11 PtrV.null).set k (PtrV.node 0) } : BuddyState) k = PtrV.node 0 := getD_set_self (by simp; omega)
  have hg6 : getHead ({ heap := [(0, { size := some (2 ^ k), start := some (m * 2 ^ (k + 1) + 2 ^ k), next := PtrV.null, prev := PtrV.null })], nextA := 1, heads := (List.replicate 11 PtrV.null).set k (PtrV.node 0) } : BuddyState) (k + 1) = PtrV.null := by
    show ((List.replicate 11 PtrV.null).set k (PtrV.node 0)).getD (k + 1) PtrV.null = PtrV.null
    rw [getD_set_ne (by omega), getD_replicate_null]
  refine ⟨?_, ?_, ?_, ?_, ?_, ?_⟩
  · unfold orderList
    rw [hg1]
    rfl
  · unfold orderList
    rw [hg2]
    show chainSS _ (1 + 1) (PtrV.node 2) = _
    unfold chainSS
    simp [hfind, chainSS, pow_succ]
  · unfold orderList
    rw [hg3]
    show chainSS _ (1 + 1) (PtrV.node 0) = _
    unfold chainSS
    simp [hfind, chainSS]
  · unfold orderList
    rw [hg4]
    rfl
  · unfold orderList
    rw [hg5]
    show chainSS _ (1 + 1) (PtrV.node 0) = _
    unfold chainSS
    simp [hfind, chainSS]
  · unfold orderList
    rw [hg6]
    rfl

/-- C4: for every order `k < 10` and buddy pair (left block at
`m·2^(k+1)`, right block at `m·2^(k+1) + 2^k`), releasing both blocks into
an engine whose lists are empty — in either order — produces exactly one
order-`(k+1)` block whose start is the lower offset (and the two runs end
in the *same* state); releasing only one of the two leaves it un-merged at
order `k`. -/
theorem c4_pair_coalescing (k m : Nat) (hk : k < 10) :
    ∃ merged : BuddyState,
      (releaseBlock emptyBS (m * 2 ^ (k + 1)) (2 ^ k) k >>= fun s =>
        releaseBlock s (m * 2 ^ (k + 1) + 2 ^ k) (2 ^ k) k) = .ok merged ∧
      (releaseBlock emptyBS (m * 2 ^ (k + 1) + 2 ^ k) (2 ^ k) k >>= fun s =>
        releaseBlock s (m * 2 ^ (k + 1)) (2 ^ k) k) = .ok merged ∧
      orderList merged 2 k = some [] ∧
      orderList merged 2 (k + 1) = some [(m * 2 ^ (k + 1), 2 ^ (k + 1))] ∧
      (∃ sL, releaseBlock emptyBS (m * 2 ^ (k + 1)) (2 ^ k) k = .ok sL ∧
        orderList sL 2 k = some [(m * 2 ^ (k + 1), 2 ^ k)] ∧
        orderList sL 2 (k + 1) = some []) ∧
      (∃ sR, releaseBlock emptyBS (m * 2 ^ (k + 1) + 2 ^ k) (2 ^ k) k = .ok sR ∧
        orderList sR 2 k = some [(m * 2 ^ (k + 1) + 2 ^ k, 2 ^ k)] ∧
        orderList sR 2 (k + 1) = some []) := by
  obtain ⟨l1, l2, l3, l4, l5, l6⟩ := c4aux_lists k m hk
  exact ⟨_, c4aux_LR k m hk, c4aux_RL k m hk, l1, l2,
    ⟨_, c4aux_L k m, l3, l4⟩, ⟨_, c4aux_R k m, l5, l6⟩⟩

/-! ## Claim C5 (amended): chains and the allocate-only invariant -/

theorem chainV_mem_find {h : Heap} :
    ∀ {p : PtrV} {l : List (Nat × Nat × Nat)}, ChainV h p l →
      ∀ a, a ∈ chainAddrs l → ∃ n, hfind h a = some n := by
  intro p l hch
  induction hch with
  | nil =>
    intro a ha
    simp [chainAddrs] at ha
  | @cons a st sz n t hf hst hsz htail ih =>
    intro x hx
    simp only [chainAddrs, List.map_cons, List.mem_cons] at hx
    rcases hx with hx | hx
    · exact ⟨n, hx ▸ hf⟩
    · exact ih x (by simpa [chainAddrs] using hx)

theorem chainV_hset_nonmem {h : Heap} {x : Nat} {nn : BuddyNode} :
    ∀ {p : PtrV} {l : List (Nat × Nat × Nat)}, ChainV h p l →
      x ∉ chainAddrs l → ChainV (hset h x nn) p l := by
  intro p l hch
  induction hch with
  | nil => intro _; exact ChainV.nil
  | @cons a st sz n t hf hst hsz htail ih =>
    intro hx
    simp only [chainAddrs, List.map_cons, List.mem_cons, not_or] at hx
    refine ChainV.cons ?_ hst hsz (ih (by simpa [chainAddrs] using hx.2))
    rw [hfind_hset_ne hx.1]
    exact hf

theorem chainV_hrem_nonmem {h : Heap} {x : Nat} :
    ∀ {p : PtrV} {l : List (Nat × Nat × Nat)}, ChainV h p l →
      x ∉ chainAddrs l → ChainV (hrem h x) p l := by
  intro p l hch
  induction hch with
  | nil => intro _; exact ChainV.nil
  | @cons a st sz n t hf hst hsz htail ih =>
    intro hx
    simp only [chainAddrs, List.map_cons, List.mem_cons, not_or] at hx
    refine ChainV.cons ?_ hst hsz (ih (by simpa [chainAddrs] using hx.2))
    rw [hfind_hrem_ne hx.1]
    exact hf

theorem chainV_consNew {h : Heap} {x : Nat} {nn : BuddyNode} :
    ∀ {p : PtrV} {l : List (Nat × Nat × Nat)}, ChainV h p l →
      x ∉ chainAddrs l → ChainV ((x, nn) :: h) p l := by
  intro p l hch
  induction hch with
  | nil => intro _; exact ChainV.nil
  | @cons a st sz n t hf hst hsz htail ih =>
    intro hx
    simp only [chainAddrs, List.map_cons, List.mem_cons, not_or] at hx
    refine ChainV.cons ?_ hst hsz (ih (by simpa [chainAddrs] using hx.2))
    show (if x = a then some nn else hfind h a) = some n
    rw [if_neg hx.1]
    exact hf

theorem chainOrderedB_tail {x : Nat × Nat} {t : List (Nat × Nat)}
    (h : chainOrderedB (x :: t) = true) : chainOrderedB t = true := by
  cases t with
  | nil => rfl
  | cons y tt =>
    simp only [chainOrderedB, Bool.and_eq_true] at h
    exact h.2

theorem chainOrderedB_short {l : List (Nat × Nat)} (h : l.length ≤ 1) :
    chainOrderedB l = true := by
  cases l with
  | nil => rfl
  | cons x t =>
    cases t with
    | nil => rfl
    | cons y tt => simp at h

theorem orderLoop_le : ∀ (fuel o np : Nat), np ≤ 1024 → o ≤ 10 →
    orderLoop fuel o np ≤ 10 := by
  intro fuel
  induction fuel with
  | zero =>
    intro o np _ ho
    exact ho
  | succ f ih =>
    intro o np hnp ho
    unfold orderLoop
    split
    · rename_i hcond
      refine ih _ _ hnp ?_
      by_cases h10 : o = 10
      · subst h10
        have h1 : power2 10 < np := hcond.1
        rw [power2_eq] at h1
        norm_num at h1
        omega
      · omega
    · exact ho

theorem find_buddy_over (fuel order : Nat) (bs : BuddyState) (h : order > 10) :
    ∀ r, find_buddy fuel order bs ≠ .ok r := by
  intro r
  cases fuel with
  | zero => simp [find_buddy]
  | succ f =>
    unfold find_buddy
    rw [if_pos h]
    simp

theorem chainV_nil_inv {h : Heap} {p : PtrV} (hch : ChainV h p []) : p = PtrV.null := by
  cases hch
  rfl

theorem chainV_cons_inv {h : Heap} {p : PtrV} {x : Nat × Nat × Nat}
    {l : List (Nat × Nat × Nat)} (hch : ChainV h p (x :: l)) :
    p = PtrV.node x.1 ∧ ∃ n, hfind h x.1 = some n ∧ n.start = some x.2.1 ∧
      n.size = some x.2.2 ∧ ChainV h n.next l := by
  cases hch with
  | cons hf hst hsz ht => exact ⟨rfl, _, hf, hst, hsz, ht⟩

theorem hfind_hrem_isSome {h : Heap} {x a : Nat} {n : BuddyNode}
    (hf : hfind (hrem h x) a = some n) : (hfind h a).isSome = true := by
  induction h with
  | nil => simp [hrem, hfind] at hf
  | cons p t ih =>
    by_cases hpx : p.1 = x
    · simp only [hrem, if_pos hpx] at hf
      simp only [hfind]
      by_cases hpa : p.1 = a
      · simp [hpa]
      · rw [if_neg hpa]
        simp [hf]
    · simp only [hrem, if_neg hpx, hfind] at hf ⊢
      by_cases hpa : p.1 = a
      · simp [hpa]
      · rw [if_neg hpa] at hf ⊢
        exact ih hf

/-- C4 witness: the pair (80, 88) at order 3. -/
theorem c4_pair_witness :
    ∃ merged : BuddyState,
      (releaseBlock emptyBS (5 * 2 ^ (3 + 1)) (2 ^ 3) 3 >>= fun s =>
        releaseBlock s (5 * 2 ^ (3 + 1) + 2 ^ 3) (2 ^ 3) 3) = .ok merged ∧
      (releaseBlock emptyBS (5 * 2 ^ (3 + 1) + 2 ^ 3) (2 ^ 3) 3 >>= fun s =>
        releaseBlock s (5 * 2 ^ (3 + 1)) (2 ^ 3) 3) = .ok merged ∧
      orderList merged 2 3 = some [] ∧
      orderList merged 2 (3 + 1) = some [(5 * 2 ^ (3 + 1), 2 ^ (3 + 1))] ∧
      (∃ sL, releaseBlock emptyBS (5 * 2 ^ (3 + 1)) (2 ^ 3) 3 = .ok sL ∧
        orderList sL 2 3 = some [(5 * 2 ^ (3 + 1), 2 ^ 3)] ∧
        orderList sL 2 (3 + 1) = some []) ∧
      (∃ sR, releaseBlock emptyBS (5 * 2 ^ (3 + 1) + 2 ^ 3) (2 ^ 3) 3 = .ok sR ∧
        orderList sR 2 3 = some [(5 * 2 ^ (3 + 1) + 2 ^ 3, 2 ^ 3)] ∧
        orderList sR 2 (3 + 1) = some []) :=
  c4_pair_coalescing 3 5 (by decide)

end MemPool


namespace MemPool

theorem writeN_eq {bs : BuddyState} {a : Nat} {n : BuddyNode}
    (hf : hfind bs.heap a = some n) (f : BuddyNode → BuddyNode) :
    writeN bs a f = .ok { bs with heap := hset bs.heap a (f n) } := by
  unfold writeN
  rw [hf]

set_option maxRecDepth 10000 in
theorem find_buddy_inv :
    ∀ (fuel order : Nat) (bs : BuddyState) (r : Nat × BuddyState),
      order ≤ 10 → AInv bs → find_buddy fuel order bs = .ok r →
      (∃ nd st, hfind r.2.heap r.1 = some nd ∧ nd.start = some st ∧
        nd.size = some (2 ^ order) ∧ st % 2 ^ order = 0) ∧
      AInv { r.2 with heap := hrem r.2.heap r.1 } ∧
      (∀ a n, hfind r.2.heap a = some n → a < r.2.nextA) := by
  intro fuel
  induction fuel with
  | zero =>
    intro order bs r _ _ h
    simp [find_buddy] at h
  | succ f ih =>
    intro order bs r ho hinv h
    obtain ⟨c, hc⟩ := hinv
    unfold find_buddy at h
    rw [if_neg (by omega)] at h
    cases hgh : getHead bs order with
    | undef =>
      rw [hgh] at h
      exact absurd h (by simp)
    | node bA =>
      rw [hgh] at h
      have hch := hc.hchain order ho
      rw [hgh] at hch
      cases hcor : c order with
      | nil =>
        rw [hcor] at hch
        exact absurd (chainV_nil_inv hch) (by simp)
      | cons x rest =>
        rw [hcor] at hch
        obtain ⟨hpx, bn, hfbA, hst, hsz, hrest⟩ := chainV_cons_inv hch
        injection hpx with hbax
        subst hbax
        have hndp := hc.hnodup order ho
        rw [hcor] at hndp
        simp only [chainAddrs, List.map_cons, List.nodup_cons] at hndp
        have hxmem : x.1 ∈ chainAddrs (c order) := by
          rw [hcor]
          simp [chainAddrs]
        have hord11 : order < bs.heads.length := by
          rw [hc.hlen]
          omega
        have hrd : readNode bs x.1 = .ok bn := readNode_ok.mpr hfbA
        simp only [M_bind_ok] at h
        obtain ⟨bn', h1, bnext, h2, h⟩ := h
        rw [hrd] at h1
        injection h1 with h1
        subst h1
        cases rest with
        | nil =>
          have hnx : bn.next = PtrV.null := chainV_nil_inv hrest
          rw [hnx] at h2
          simp only [ptrOf] at h2
          injection h2 with h2
          subst h2
          simp only [M_bind_ok] at h
          obtain ⟨bs₁, h3, bs₂, h4, h5⟩ := h
          injection h3 with h3
          subst h3
          rw [writeN_eq (show hfind (setHead bs order PtrV.null).heap x.1 = some bn from hfbA)] at h4
          injection h4 with h4
          subst h4
          injection h5 with h5
          subst h5
          simp only [setHead]
          have hal := hc.halign order ho x (by rw [hcor]; simp)
          refine ⟨⟨{ size := bn.size, start := bn.start, next := PtrV.null, prev := PtrV.null },
            x.2.1, ?_, ?_, ?_, ?_⟩, ?_, ?_⟩
          · exact hfind_hset_self hfbA _
          · exact hst
          · show bn.size = some (2 ^ order)
            rw [hsz, hal.1]
          · exact hal.2
          · refine ⟨fun o => if o = order then [] else c o, ?_, ?_, ?_, ?_, ?_, ?_, ?_, ?_⟩
            · show (bs.heads.set order PtrV.null).length = 11
              rw [List.length_set]
              exact hc.hlen
            · intro o ho'
              by_cases ho2 : o = order
              · subst ho2
                have hg : getHead { heap := hrem (hset bs.heap x.1 { size := bn.size, start := bn.start, next := PtrV.null, prev := PtrV.null }) x.1, nextA := bs.nextA, heads := bs.heads.set o PtrV.null } o = PtrV.null := getD_set_self hord11
                rw [hg, if_pos rfl]
                exact ChainV.nil
              · have hg : getHead { heap := hrem (hset bs.heap x.1 { size := bn.size, start := bn.start, next := PtrV.null, prev := PtrV.null }) x.1, nextA := bs.nextA, heads := bs.heads.set order PtrV.null } o = getHead bs o := getD_set_ne (fun hh => ho2 hh.symm)
                rw [hg, if_neg ho2]
                have hnm : x.1 ∉ chainAddrs (c o) :=
                  hc.hdisj order o ho ho' (fun hh => ho2 hh.symm) x.1 hxmem
                exact chainV_hrem_nonmem (chainV_hset_nonmem (hc.hchain o ho') hnm) hnm
            · intro o ho'
              by_cases ho2 : o = order
              · simp [ho2]
              · simp only [if_neg ho2]
                exact hc.hlow o ho'
            · by_cases h10 : (10 : Nat) = order
              · simp only [if_pos h10]
                rfl
              · simp only [if_neg h10]
                exact hc.hsorted
            · intro o1 o2 ho1 ho2 hne a ha1 ha2
              have sub : ∀ o a, a ∈ chainAddrs (if o = order then [] else c o) →
                  a ∈ chainAddrs (c o) := by
                intro o a ha
                by_cases hoo : o = order
                · rw [if_pos hoo] at ha
                  simp [chainAddrs] at ha
                · rwa [if_neg hoo] at ha
              exact hc.hdisj o1 o2 ho1 ho2 hne a (sub o1 a ha1) (sub o2 a ha2)
            · intro o ho'
              by_cases ho2 : o = order
              · simp [ho2, chainAddrs]
              · simp only [if_neg ho2]
                exact hc.hnodup o ho'
            · intro a n hfa
              have h1 := hfind_hrem_isSome hfa
              rw [hfind_hset_isSome] at h1
              obtain ⟨n', hn'⟩ := Option.isSome_iff_exists.mp h1
              exact hc.hfresh a n' hn'
            · intro o ho2 z hz
              by_cases ho3 : o = order
              · rw [if_pos ho3] at hz
                simp at hz
              · rw [if_neg ho3] at hz
                exact hc.halign o ho2 z hz
          · intro a n hfa
            have h1 : (hfind bs.heap a).isSome = true := by
              rw [← hfind_hset_isSome (h := bs.heap) (a := x.1) ({ size := bn.size, start := bn.start, next := PtrV.null, prev := PtrV.null })]
              simp [hfa]
            obtain ⟨n', hn'⟩ := Option.isSome_iff_exists.mp h1
            exact hc.hfresh a n' hn'
        | cons y rest' =>
          obtain ⟨hpy, cn, hfcn, hcst, hcsz, hrest2⟩ := chainV_cons_inv hrest
          rw [hpy] at h2
          simp only [ptrOf] at h2
          injection h2 with h2
          subst h2
          have hxy : x.1 ≠ y.1 ∧ x.1 ∉ List.map (fun t => t.1) rest' := by
            have h6 := hndp.1
            simp only [List.map_cons, List.mem_cons, not_or] at h6
            exact h6
          have hxnm : x.1 ∉ chainAddrs (y :: rest') := by
            simp only [chainAddrs, List.map_cons, List.mem_cons, not_or]
            exact hxy
          rw [hpy] at hrest
          simp only [M_bind_ok] at h
          obtain ⟨bs₁, h3, bs₂, h4, h5⟩ := h
          rw [writeN_eq (show hfind (setHead bs order (PtrV.node y.1)).heap y.1 = some cn from hfcn)] at h3
          injection h3 with h3
          subst h3
          have hfb1 : hfind { setHead bs order (PtrV.node y.1) with heap := hset (setHead bs order (PtrV.node y.1)).heap y.1 ((fun (m : BuddyNode) => { m with prev := PtrV.null }) cn) }.heap x.1 = some bn := by
            show hfind (hset bs.heap y.1 _) x.1 = some bn
            rw [hfind_hset_ne (fun hh => hxy.1 hh.symm)]
            exact hfbA
          rw [writeN_eq hfb1] at h4
          injection h4 with h4
          subst h4
          injection h5 with h5
          subst h5
          simp only [setHead]
          have hal := hc.halign order ho x (by rw [hcor]; simp)
          refine ⟨⟨{ size := bn.size, start := bn.start, next := PtrV.null, prev := PtrV.null },
            x.2.1, ?_, ?_, ?_, ?_⟩, ?_, ?_⟩
          · have hf1 : hfind (hset bs.heap y.1 { cn with prev := PtrV.null }) x.1 = some bn := by
              rw [hfind_hset_ne (fun hh => hxy.1 hh.symm)]
              exact hfbA
            exact hfind_hset_self hf1 _
          · exact hst
          · show bn.size = some (2 ^ order)
            rw [hsz, hal.1]
          · exact hal.2
          · refine ⟨fun o => if o = order then y :: rest' else c o, ?_, ?_, ?_, ?_, ?_, ?_, ?_, ?_⟩
            · show (bs.heads.set order (PtrV.node y.1)).length = 11
              rw [List.length_set]
              exact hc.hlen
            · intro o ho'
              by_cases ho2 : o = order
              · subst ho2
                have hg : ∀ (hp : Heap) (na : Nat),
                    getHead { heap := hp, nextA := na, heads := bs.heads.set o (PtrV.node y.1) } o = PtrV.node y.1 :=
                  fun hp na => getD_set_self hord11
                rw [hg, if_pos rfl]
                exact chainV_hrem_nonmem
                  (chainV_hset_nonmem (chainV_congr (coreAgree_prevWrite hfcn PtrV.null) hrest) hxnm) hxnm
              · have hg : ∀ (hp : Heap) (na : Nat),
                    getHead { heap := hp, nextA := na, heads := bs.heads.set order (PtrV.node y.1) } o = getHead bs o :=
                  fun hp na => getD_set_ne (fun hh => ho2 hh.symm)
                rw [hg, if_neg ho2]
                have hnm : x.1 ∉ chainAddrs (c o) :=
                  hc.hdisj order o ho ho' (fun hh => ho2 hh.symm) x.1 hxmem
                exact chainV_hrem_nonmem
                  (chainV_hset_nonmem
                    (chainV_congr (coreAgree_prevWrite hfcn PtrV.null) (hc.hchain o ho')) hnm) hnm
            · intro o ho'
              by_cases ho2 : o = order
              · subst ho2
                have hl := hc.hlow o ho'
                rw [hcor] at hl
                simp only [List.length_cons] at hl
                exact absurd hl (by omega)
              · simp only [if_neg ho2]
                exact hc.hlow o ho'
            · by_cases h10 : (10 : Nat) = order
              · simp only [if_pos h10]
                rw [← h10] at hcor
                have hs := hc.hsorted
                rw [hcor] at hs
                exact chainOrderedB_tail hs
              · simp only [if_neg h10]
                exact hc.hsorted
            · intro o1 o2 ho1 ho2 hne a ha1 ha2
              have sub : ∀ o a, a ∈ chainAddrs (if o = order then y :: rest' else c o) →
                  a ∈ chainAddrs (c o) := by
                intro o a ha
                by_cases hoo : o = order
                · rw [if_pos hoo] at ha
                  rw [hoo, hcor]
                  simp only [chainAddrs, List.map_cons, List.mem_cons] at ha ⊢
                  exact Or.inr ha
                · rwa [if_neg hoo] at ha
              exact hc.hdisj o1 o2 ho1 ho2 hne a (sub o1 a ha1) (sub o2 a ha2)
            · intro o ho'
              by_cases ho2 : o = order
              · simp only [if_pos ho2]
                exact hndp.2
              · simp only [if_neg ho2]
                exact hc.hnodup o ho'
            · intro a n hfa
              have h6 := hfind_hrem_isSome hfa
              rw [hfind_hset_isSome, hfind_hset_isSome] at h6
              obtain ⟨n2, hn2⟩ := Option.isSome_iff_exists.mp h6
              exact hc.hfresh a n2 hn2
            · intro o ho2 z hz
              by_cases ho3 : o = order
              · rw [if_pos ho3] at hz
                refine hc.halign o ho2 z ?_
                rw [ho3, hcor]
                exact List.mem_cons_of_mem _ hz
              · rw [if_neg ho3] at hz
                exact hc.halign o ho2 z hz
          · intro a n hfa
            have h6 := congrArg Option.isSome hfa
            rw [hfind_hset_isSome, hfind_hset_isSome] at h6
            obtain ⟨n2, hn2⟩ := Option.isSome_iff_exists.mp h6
            exact hc.hfresh a n2 hn2
    | null =>
      rw [hgh] at h
      simp only [M_bind_ok] at h
      obtain ⟨r0, hrec, h⟩ := h
      have ho1 : order + 1 ≤ 10 := by
        by_contra hgt
        exact find_buddy_over f (order + 1) bs (by omega) r0 hrec
      obtain ⟨⟨bigN, bigSt, hfbig, hbigst, hbigsz, hbigal⟩, hinv0, hfr0⟩ :=
        ih (order + 1) bs r0 ho1 ⟨c, hc⟩ hrec
      obtain ⟨c0, hc0⟩ := hinv0
      simp only [M_bind_ok, mallocN] at h
      obtain ⟨bigM, h1, szv, h2, stv, h3, bsA, h4, bsB, h5, bsC, h6, h7⟩ := h
      rw [readNode_ok] at h1
      rw [valOf_ok] at h2
      rw [valOf_ok] at h3
      simp only [writeN_ok] at h4
      simp only [writeN_ok] at h5
      obtain ⟨u1, hu1, hbsA⟩ := h4
      obtain ⟨u2, hu2, hbsB⟩ := h5
      rw [freeN_ok] at h6
      obtain ⟨⟨u3, hu3⟩, hbsC⟩ := h6
      injection h7 with h7
      subst h7
      have hlt : r0.1 < r0.2.nextA := hfr0 r0.1 bigM h1
      have hMN : bigM = bigN := by
        rw [h1] at hfbig
        injection hfbig
      subst hMN
      have hszv : szv = 2 ^ (order + 1) := by
        rw [h2] at hbigsz
        exact Option.some.inj hbigsz
      have hstv : stv = bigSt := by
        rw [h3] at hbigst
        exact Option.some.inj hbigst
      have hsz2 : szv / 2 = 2 ^ order := by
        rw [hszv, pow_succ]
        omega
      have hstal : stv % 2 ^ order = 0 := by
        have hd3 : (2 : Nat) ^ order ∣ stv :=
          dvd_trans ⟨2, pow_succ 2 order⟩
            (Nat.dvd_of_mod_eq_zero (by rw [hstv]; exact hbigal))
        obtain ⟨t, ht⟩ := hd3
        rw [ht]
        exact Nat.mul_mod_right _ _
      have hAn : bsA.nextA = r0.2.nextA + 1 := by
        rw [hbsA]
      have hA : bsA.heap = (r0.2.nextA, { size := some (szv / 2), start := some stv, next := PtrV.null, prev := PtrV.null }) :: r0.2.heap := by
        rw [hbsA]
        show hset ((r0.2.nextA, {}) :: r0.2.heap) r0.2.nextA { size := some (szv / 2), start := some stv, next := PtrV.null, prev := PtrV.null } = _
        simp [hset]
      have hBn : bsB.nextA = r0.2.nextA + 2 := by
        rw [hbsB]
        show bsA.nextA + 1 = _
        omega
      have hBheads : bsB.heads = r0.2.heads := by
        rw [hbsB]
        show bsA.heads = _
        rw [hbsA]
      have hB : bsB.heap = (r0.2.nextA + 1, { size := some (szv / 2), start := some (stv + szv / 2), next := PtrV.null, prev := PtrV.null }) :: (r0.2.nextA, { size := some (szv / 2), start := some stv, next := PtrV.null, prev := PtrV.null }) :: r0.2.heap := by
        rw [hbsB]
        show hset ((bsA.nextA, {}) :: bsA.heap) bsA.nextA { size := some (szv / 2), start := some (stv + szv / 2), next := PtrV.null, prev := PtrV.null } = _
        simp [hset, hA, hAn]
      have hCheap : bsC.heap = (r0.2.nextA + 1, { size := some (szv / 2), start := some (stv + szv / 2), next := PtrV.null, prev := PtrV.null }) :: (r0.2.nextA, { size := some (szv / 2), start := some stv, next := PtrV.null, prev := PtrV.null }) :: hrem r0.2.heap r0.1 := by
        rw [hbsC]
        show hrem bsB.heap r0.1 = _
        rw [hB]
        simp only [hrem]
        rw [if_neg (by omega), if_neg (by omega)]
      have hCn : bsC.nextA = r0.2.nextA + 2 := by
        rw [hbsC]
        show bsB.nextA = _
        omega
      have hCheads : bsC.heads = r0.2.heads.set order (PtrV.node (r0.2.nextA + 1)) := by
        rw [hbsC]
        show bsB.heads.set order (PtrV.node bsA.nextA) = _
        rw [hBheads, hAn]
      have hCm : hrem bsC.heap r0.2.nextA = (r0.2.nextA + 1, { size := some (szv / 2), start := some (stv + szv / 2), next := PtrV.null, prev := PtrV.null }) :: hrem r0.2.heap r0.1 := by
        rw [hCheap]
        simp [hrem]
      have haddr : ∀ o, o ≤ 10 → ∀ x, x ∈ chainAddrs (c0 o) → x < r0.2.nextA := by
        intro o ho2 x hx
        obtain ⟨nx, hnx⟩ := chainV_mem_find (hc0.hchain o ho2) x hx
        have h9 : (hfind r0.2.heap x).isSome = true :=
          hfind_hrem_isSome (show hfind (hrem r0.2.heap r0.1) x = some nx from hnx)
        obtain ⟨nx2, hnx2⟩ := Option.isSome_iff_exists.mp h9
        exact hfr0 x nx2 hnx2
      have hlen2 : r0.2.heads.length = 11 := hc0.hlen
      refine ⟨?_, ?_, ?_⟩
      · show ∃ nd st, hfind bsC.heap r0.2.nextA = some nd ∧ nd.start = some st ∧
          nd.size = some (2 ^ order) ∧ st % 2 ^ order = 0
        refine ⟨{ size := some (szv / 2), start := some stv, next := PtrV.null, prev := PtrV.null }, stv, ?_, rfl, ?_, hstal⟩
        · rw [hCheap]
          simp [hfind]
        · show some (szv / 2) = some (2 ^ order)
          rw [hsz2]
      · show AInv { heap := hrem bsC.heap r0.2.nextA, nextA := bsC.nextA, heads := bsC.heads }
        rw [hCm, hCn, hCheads]
        refine ⟨fun o => if o = order then [(r0.2.nextA + 1, stv + szv / 2, szv / 2)] else c0 o,
          ?_, ?_, ?_, ?_, ?_, ?_, ?_, ?_⟩
        · show (r0.2.heads.set order (PtrV.node (r0.2.nextA + 1))).length = 11
          rw [List.length_set]
          exact hlen2
        · intro o ho2
          by_cases ho3 : o = order
          · subst ho3
            have hg : ∀ (hp : Heap) (na : Nat),
                getHead { heap := hp, nextA := na, heads := r0.2.heads.set o (PtrV.node (r0.2.nextA + 1)) } o = PtrV.node (r0.2.nextA + 1) :=
              fun hp na => getD_set_self (by rw [hlen2]; omega)
            rw [hg, if_pos rfl]
            exact ChainV.cons (n := { size := some (szv / 2), start := some (stv + szv / 2), next := PtrV.null, prev := PtrV.null }) (by simp [hfind]) rfl rfl ChainV.nil
          · have hg : ∀ (hp : Heap) (na : Nat),
                getHead { heap := hp, nextA := na, heads := r0.2.heads.set order (PtrV.node (r0.2.nextA + 1)) } o = getHead { heap := hrem r0.2.heap r0.1, nextA := r0.2.nextA, heads := r0.2.heads } o :=
              fun hp na => getD_set_ne (fun hh => ho3 hh.symm)
            rw [hg, if_neg ho3]
            exact chainV_consNew (hc0.hchain o ho2)
              (fun hx => by have h9 := haddr o ho2 _ hx; omega)
        · intro o ho2
          by_cases ho3 : o = order
          · simp only [if_pos ho3]
            simp
          · simp only [if_neg ho3]
            exact hc0.hlow o ho2
        · by_cases h10 : (10 : Nat) = order
          · simp only [if_pos h10]
            rfl
          · simp only [if_neg h10]
            exact hc0.hsorted
        · intro o1 o2 ho2 ho3 hne a ha1 ha2
          by_cases e1 : o1 = order
          · rw [if_pos e1] at ha1
            have ha : a = r0.2.nextA + 1 := by
              simpa [chainAddrs] using ha1
            by_cases e2 : o2 = order
            · exact hne (e1.trans e2.symm)
            · rw [if_neg e2] at ha2
              have h9 := haddr o2 ho3 a ha2
              omega
          · rw [if_neg e1] at ha1
            by_cases e2 : o2 = order
            · rw [if_pos e2] at ha2
              have ha : a = r0.2.nextA + 1 := by
                simpa [chainAddrs] using ha2
              have h9 := haddr o1 ho2 a ha1
              omega
            · rw [if_neg e2] at ha2
              exact hc0.hdisj o1 o2 ho2 ho3 hne a ha1 ha2
        · intro o ho2
          by_cases ho3 : o = order
          · simp only [if_pos ho3]
            simp [chainAddrs]
          · simp only [if_neg ho3]
            exact hc0.hnodup o ho2
        · intro a n hfa
          have h9 : hfind ((r0.2.nextA + 1, { size := some (szv / 2), start := some (stv + szv / 2), next := PtrV.null, prev := PtrV.null }) :: hrem r0.2.heap r0.1) a = some n := hfa
          show a < r0.2.nextA + 2
          by_cases haν : r0.2.nextA + 1 = a
          · omega
          · simp only [hfind] at h9
            rw [if_neg haν] at h9
            have h10 := hfind_hrem_isSome h9
            obtain ⟨nx, hnx⟩ := Option.isSome_iff_exists.mp h10
            have h11 := hfr0 a nx hnx
            omega
        · intro o ho2 z hz
          by_cases ho3 : o = order
          · rw [if_pos ho3] at hz
            simp only [List.mem_singleton] at hz
            subst hz
            refine ⟨?_, ?_⟩
            · show szv / 2 = 2 ^ o
              rw [ho3]
              exact hsz2
            · show (stv + szv / 2) % 2 ^ o = 0
              rw [ho3, hsz2, Nat.add_mod, hstal, Nat.mod_self]
              simp
          · rw [if_neg ho3] at hz
            exact hc0.halign o ho2 z hz
      · show ∀ a n, hfind bsC.heap a = some n → a < bsC.nextA
        intro a n hfa
        rw [hCheap] at hfa
        rw [hCn]
        simp only [hfind] at hfa
        by_cases e1 : r0.2.nextA + 1 = a
        · omega
        · rw [if_neg e1] at hfa
          by_cases e2 : r0.2.nextA = a
          · omega
          · rw [if_neg e2] at hfa
            have h10 := hfind_hrem_isSome hfa
            obtain ⟨nx, hnx⟩ := Option.isSome_iff_exists.mp h10
            have h11 := hfr0 a nx hnx
            omega



theorem chainOrderedB_range1024 :
    ∀ (k s : Nat), chainOrderedB ((List.range' s k).map fun j => (j * 1024, 1024)) = true := by
  intro k
  induction k with
  | zero =>
    intro s
    rfl
  | succ k2 ih =>
    intro s
    cases k2 with
    | zero => rfl
    | succ k3 =>
      rw [List.range'_succ, List.map_cons, List.range'_succ, List.map_cons]
      simp only [chainOrderedB]
      rw [Bool.and_eq_true]
      refine ⟨?_, ?_⟩
      · rw [decide_eq_true_eq]
        omega
      · have h9 := ih (s + 1)
        rw [List.range'_succ, List.map_cons] at h9
        exact h9

theorem mkPoolM_AInv {page_shift ptr limit : Nat} {s : PoolState}
    (h : mkPoolM page_shift ptr limit = .ok s) : AInv s.buddy := by
  unfold mkPoolM at h
  by_cases htp : (limit - ptr) >>> page_shift = 0
  · rw [if_pos htp] at h
    exact absurd h (by simp)
  · rw [if_neg htp] at h
    simp only [M_bind_ok] at h
    set N := ((limit - ptr) >>> page_shift) / 1024 with hN
    set R := mkBuddyLoop N PtrV.null [] 0 with hR
    obtain ⟨bs2, hsp, hfin⟩ := h
    injection hfin with hfin
    subst hfin
    obtain ⟨hnA, hlen0, hLt, hch⟩ :=
      mkBuddyLoop_chainV N PtrV.null [] 0 []
        (fun a n hf => by simp [hfind] at hf) ChainV.nil
    have hch2 : ChainV (mkBuddyLoop N PtrV.null [] 0).2.1 (mkBuddyLoop N PtrV.null [] 0).1
        ((List.range N).map fun j => (N - 1 - j, j * 1024, 1024)) := by
      simpa using hch
    rw [← hR] at hch2 hnA hlen0 hLt
    have hlen1 : R.2.1.length = N := by simpa using hlen0
    have hnA1 : R.2.2 = N := by simpa using hnA
    rw [Nat.zero_add] at hLt
    obtain ⟨bs3, hsp2, hagree, hheads, hnexta, _⟩ :=
      setPrevLoop_ok ((List.range N).map fun j => (N - 1 - j, j * 1024, 1024))
        (R.2.1.length + 1) R.1 PtrV.null
        { heap := R.2.1, nextA := R.2.2, heads := List.replicate 10 PtrV.null ++ [R.1] }
        hch2 (by rw [List.length_map, List.length_range]; omega)
    rw [hsp2] at hsp
    injection hsp with hsp
    subst hsp
    show AInv bs3
    refine ⟨fun o => if o = 10 then (List.range N).map (fun j => (N - 1 - j, j * 1024, 1024)) else [],
      ?_, ?_, ?_, ?_, ?_, ?_, ?_, ?_⟩
    · show bs3.heads.length = 11
      rw [hheads]
      show (List.replicate 10 PtrV.null ++ [R.1]).length = 11
      simp
    · intro o ho
      by_cases h10 : o = 10
      · subst h10
        have hg : getHead bs3 10 = R.1 := by
          show bs3.heads.getD 10 PtrV.null = _
          rw [hheads]
          exact heads_pool_10 _
        rw [hg, if_pos rfl]
        exact chainV_congr hagree hch2
      · have hg : getHead bs3 o = PtrV.null := by
          show bs3.heads.getD o PtrV.null = _
          rw [hheads]
          exact heads_pool_lt (by omega)
        rw [hg, if_neg h10]
        exact ChainV.nil
    · intro o ho
      rw [if_neg (by omega)]
      simp
    · rw [if_pos rfl]
      have hv : chainVals ((List.range N).map fun j => (N - 1 - j, j * 1024, 1024)) =
          (List.range' 0 N).map fun j => (j * 1024, 1024) := by
        rw [← List.range_eq_range']
        simp only [chainVals, List.map_map]
        rfl
      show chainOrderedB (chainVals ((List.range N).map fun j => (N - 1 - j, j * 1024, 1024))) = true
      rw [hv]
      exact chainOrderedB_range1024 N 0
    · intro o1 o2 ho1 ho2 hne a ha1 ha2
      by_cases e1 : o1 = 10
      · by_cases e2 : o2 = 10
        · exact hne (e1.trans e2.symm)
        · rw [if_neg e2] at ha2
          simp [chainAddrs] at ha2
      · rw [if_neg e1] at ha1
        simp [chainAddrs] at ha1
    · intro o ho
      by_cases h10 : o = 10
      · rw [if_pos h10]
        have hv : chainAddrs ((List.range N).map fun j => (N - 1 - j, j * 1024, 1024)) =
            (List.range N).map fun j => N - 1 - j := by
          simp only [chainAddrs, List.map_map]
          rfl
        rw [hv]
        refine List.Nodup.map_on ?_ (List.nodup_range N)
        intro x hx y hy hxy
        simp only [List.mem_range] at hx hy
        omega
      · rw [if_neg h10]
        simp [chainAddrs]
    · intro a nd hf
      have h9 := hagree a
      rw [hf] at h9
      cases hb : hfind R.2.1 a with
      | none =>
        have h9b : Option.map nodeCore (hfind R.2.1 a) = Option.map nodeCore (some nd) := h9
        rw [hb] at h9b
        exact absurd h9b (by simp)
      | some m =>
        have h10 := hLt a m hb
        have h11 : bs3.nextA = R.2.2 := hnexta
        omega
    · intro o ho z hz
      by_cases h10 : o = 10
      · rw [if_pos h10] at hz
        obtain ⟨j, hj, rfl⟩ := List.mem_map.mp hz
        refine ⟨?_, ?_⟩
        · show (1024 : Nat) = 2 ^ o
          rw [h10]
          norm_num
        · show (j * 1024) % 2 ^ o = 0
          rw [h10]
          exact Nat.mul_mod_left j 1024
      · rw [if_neg h10] at hz
        simp at hz

theorem allocate_AInv {s : PoolState} {np : Nat} {r : Nat × PoolState}
    (hinv : AInv s.buddy) (h : allocate s np = .ok r) : AInv r.2.buddy := by
  unfold allocate at h
  by_cases h1 : np < 1
  · rw [if_pos h1] at h
    exact absurd h (by simp)
  · rw [if_neg h1] at h
    by_cases h2 : np > 1024
    · rw [if_pos h2] at h
      exact absurd h (by simp)
    · rw [if_neg h2] at h
      simp only [M_bind_ok] at h
      obtain ⟨r1, hfb, bn, hrd, st, hv, bsf, hfree, hfin⟩ := h
      have hord : orderLoop 12 0 np ≤ 10 := orderLoop_le 12 0 np (by omega) (by omega)
      obtain ⟨_, hminus, _⟩ := find_buddy_inv 12 (orderLoop 12 0 np) s.buddy r1 hord hinv hfb
      rw [freeN_ok] at hfree
      obtain ⟨⟨u, hu⟩, hbsf⟩ := hfree
      injection hfin with hfin
      subst hfin
      show AInv bsf
      rw [hbsf]
      exact hminus

theorem reach_AInv {s : PoolState} (h : ReachAlloc s) : AInv s.buddy := by
  induction h with
  | base ps ptr lim s2 hmk => exact mkPoolM_AInv hmk
  | step s2 np r2 hre hal ih => exact allocate_AInv ih hal

/-- Claim C5 (amended): in every state reachable from a successful
construction by successful `allocate` calls alone, every order's free list
is observable as a `(startOffset, size)` sequence whose startOffsets are
strictly increasing and whose extents are pairwise disjoint.  (The original
claim, quantifying over `deallocate` calls too, is refuted by
`c5_counterexample`.) -/
theorem c5_amended (s : PoolState) (hs : ReachAlloc s) (o : Nat) (ho : o ≤ 10) :
    ∃ f l, orderList s.buddy f o = some l ∧ ChainOrdered l := by
  obtain ⟨c, hc⟩ := reach_AInv hs
  refine ⟨(c o).length + 1, chainVals (c o), ?_, ?_⟩
  · show chainSS s.buddy.heap ((c o).length + 1) (getHead s.buddy o) = _
    exact chainV_chainSS (hc.hchain o ho) _ (by omega)
  · by_cases h10 : o = 10
    · subst h10
      exact hc.hsorted
    · have hl := hc.hlow o (by omega)
      exact chainOrderedB_short (by simp only [chainVals, List.length_map]; omega)

/-- C5 witness: the amended invariant instantiated at the freshly
constructed 2048-page pool, order 10. -/
theorem c5_witness :
    ReachAlloc pool2048 ∧
      (∃ f l, orderList pool2048.buddy f 10 = some l ∧ ChainOrdered l) :=
  ⟨ReachAlloc.base 12 0 (2048 * 4096) pool2048 (by decide),
   c5_amended pool2048 (ReachAlloc.base 12 0 (2048 * 4096) pool2048 (by decide)) 10 (by decide)⟩

/-- Claim C10: in every state reachable from construction by successful
`allocate` calls, every free block's startOffset is a multiple of its size
`2^order`, and consequently every address `allocate` returns for order `k`
is `start <<< pageShift` with `start` a multiple of `2^k` pages.  The
`deallocate`-inclusive part of the claim's state space is cut off by the
same defect as claim C3: deallocating the very address the first
`allocate` returned reads the unit block's uninitialized `prev` link
inside `insert_buddy`, so no well-defined successor state exists. -/
theorem c10_alignment :
    (∀ s, ReachAlloc s → ∀ o, o ≤ 10 →
      ∃ f l, orderList s.buddy f o = some l ∧
        ∀ x ∈ l, x.2 = 2 ^ o ∧ x.1 % 2 ^ o = 0) ∧
    (∀ s np r, ReachAlloc s → allocate s np = .ok r →
      ∃ st, r.1 = st <<< s.pageShift ∧ st % 2 ^ orderLoop 12 0 np = 0) ∧
    allocate pool2048 1 = .ok (0, pool2048a) ∧
    deallocate pool2048a 0 1 = .error .undefRead := by
  refine ⟨?_, ?_, by decide, by decide⟩
  · intro s hs o ho
    obtain ⟨c, hc⟩ := reach_AInv hs
    refine ⟨(c o).length + 1, chainVals (c o), ?_, ?_⟩
    · show chainSS s.buddy.heap ((c o).length + 1) (getHead s.buddy o) = _
      exact chainV_chainSS (hc.hchain o ho) _ (by omega)
    · intro x hx
      obtain ⟨t, ht, rfl⟩ := List.mem_map.mp hx
      exact hc.halign o ho t ht
  · intro s np r hs hal
    obtain ⟨c, hc⟩ := reach_AInv hs
    unfold allocate at hal
    by_cases h1 : np < 1
    · rw [if_pos h1] at hal
      exact absurd hal (by simp)
    · rw [if_neg h1] at hal
      by_cases h2 : np > 1024
      · rw [if_pos h2] at hal
        exact absurd hal (by simp)
      · rw [if_neg h2] at hal
        simp only [M_bind_ok] at hal
        obtain ⟨r1, hfb, bn, hrd, st, hv, bsf, hfree, hfin⟩ := hal
        have hord : orderLoop 12 0 np ≤ 10 := orderLoop_le 12 0 np (by omega) (by omega)
        obtain ⟨⟨nd, ndst, hnd, hndst, hndsz, hndal⟩, _, _⟩ :=
          find_buddy_inv 12 (orderLoop 12 0 np) s.buddy r1 hord ⟨c, hc⟩ hfb
        rw [readNode_ok] at hrd
        rw [hnd] at hrd
        have hbn : nd = bn := Option.some.inj hrd
        subst hbn
        rw [valOf_ok] at hv
        rw [hv] at hndst
        have hst : ndst = st := Option.some.inj hndst.symm
        subst hst
        injection hfin with hfin
        subst hfin
        exact ⟨ndst, rfl, hndal⟩

/-- C10 witness: the freshly constructed 2048-page pool — the order-10
extents are 1024-page aligned, and the first allocate's returned address
is aligned to its order. -/
theorem c10_witness :
    ReachAlloc pool2048 ∧
      (∃ f l, orderList pool2048.buddy f 10 = some l ∧
        ∀ x ∈ l, x.2 = 2 ^ 10 ∧ x.1 % 2 ^ 10 = 0) ∧
      (∃ st, (0, pool2048a).1 = st <<< pool2048.pageShift ∧
        st % 2 ^ orderLoop 12 0 1 = 0) := by
  have hre : ReachAlloc pool2048 := ReachAlloc.base 12 0 (2048 * 4096) pool2048 (by decide)
  exact ⟨hre, c10_alignment.1 pool2048 hre 10 (by decide),
    c10_alignment.2.1 pool2048 1 (0, pool2048a) hre c10_alignment.2.2.1⟩

end MemPool
